import Mathlib

/-!
Verification of the subd agent-execution platform against its specification.

Each section embeds one component of the source tree as executable Lean
definitions (translated from the JavaScript sources), followed by theorems
that settle the specification claims about that component.
-/

set_option maxRecDepth 4000

/-- The ASCII apostrophe character, used when reproducing source error strings. -/
def quoteChar : String := String.singleton (Char.ofNat 39)

/-- Whitespace characters recognised by JavaScript `trim` and `\s`
(the ASCII subset, which is all that occurs in the embedded string data). -/
def isWsChar (c : Char) : Bool :=
  c = ' ' || c = '\t' || c = '\n' || c = '\r' || c = Char.ofNat 11 || c = Char.ofNat 12

/-- JavaScript `String.prototype.trim`. -/
def jsTrim (s : String) : String :=
  String.mk (((s.toList.dropWhile isWsChar).reverse.dropWhile isWsChar).reverse)

/-- Worker for `jsSplit`; the fuel bounds the number of scanned characters so
the recursion is structural and kernel-reducible. -/
def jsSplitAux (sep : List Char) (fuel : Nat) (s : List Char) (cur : List Char)
    (acc : List String) : List String :=
  match fuel with
  | 0 => acc ++ [String.mk cur.reverse]
  | fuel + 1 =>
    match s with
    | [] => acc ++ [String.mk cur.reverse]
    | c :: rest =>
      if sep ≠ [] && sep.isPrefixOf (c :: rest) then
        jsSplitAux sep fuel ((c :: rest).drop sep.length) [] (acc ++ [String.mk cur.reverse])
      else
        jsSplitAux sep fuel rest (c :: cur) acc

/-- JavaScript `String.prototype.split` with a non-empty string separator:
cut at each leftmost, non-overlapping occurrence. -/
def jsSplit (s sep : String) : List String :=
  jsSplitAux sep.toList (s.toList.length + 1) s.toList [] []

example : jsSplit "a,b,,c" "," = ["a", "b", "", "c"] := by decide
example : jsSplit "pending,running -> paused" "->" = ["pending,running ", " paused"] := by decide

/-- First-match association-list lookup, modelling a JavaScript `Map.get`
(keys in the tables below are unique, as object/Map keys are in JS). -/
def assocFind {α : Type} (l : List (String × α)) (k : String) : Option α :=
  match l with
  | [] => none
  | (k0, v0) :: rest => if k0 = k then some v0 else assocFind rest k

/-- Insert-or-replace for an association list, modelling `Map.set`. -/
def assocSet {α : Type} (l : List (String × α)) (k : String) (v : α) : List (String × α) :=
  match l with
  | [] => [(k, v)]
  | (k0, v0) :: rest => if k0 = k then (k, v) :: rest else (k0, v0) :: assocSet rest k v

/-- Remove a key, modelling `Map.delete` (a Map's keys are unique, so
removing every occurrence is the same operation). -/
def assocDel {α : Type} (l : List (String × α)) (k : String) : List (String × α) :=
  match l with
  | [] => []
  | (k0, v0) :: rest => if k0 = k then assocDel rest k else (k0, v0) :: assocDel rest k

theorem assocFind_assocSet_self {α : Type} (l : List (String × α)) (k : String) (v : α) :
    assocFind (assocSet l k v) k = some v := by
  induction l with
  | nil => simp [assocSet, assocFind]
  | cons hd tl ih =>
    obtain ⟨k0, v0⟩ := hd
    by_cases hk : k0 = k
    · simp [assocSet, assocFind, hk]
    · simp [assocSet, assocFind, hk, ih]

theorem assocFind_assocDel_self {α : Type} (l : List (String × α)) (k : String) :
    assocFind (assocDel l k) k = none := by
  induction l with
  | nil => rfl
  | cons hd tl ih =>
    obtain ⟨k0, v0⟩ := hd
    by_cases hk : k0 = k
    · simp [assocDel, hk, ih]
    · simp [assocDel, assocFind, hk, ih]

theorem assocFind_some_mem {α : Type} {l : List (String × α)} {k : String} {v : α}
    (h : assocFind l k = some v) : (k, v) ∈ l := by
  induction l with
  | nil => simp [assocFind] at h
  | cons hd tl ih =>
    obtain ⟨k0, v0⟩ := hd
    by_cases hk : k0 = k
    · subst hk
      rw [assocFind, if_pos rfl] at h
      injection h with h2
      subst h2
      exact List.mem_cons_self _ _
    · rw [assocFind, if_neg hk] at h
      exact List.mem_cons_of_mem _ (ih h)

/-! ## FSM primitive (common/fsm.mjs)

The generic finite-state-machine table used by the session lifecycle. -/

/-- One parsed transition rule: admissible from-states and the target state. -/
structure FSMRule where
  fromStates : List String
  toState : String
deriving Repr, DecidableEq

/-- `FSM` constructor parsing of one rule string such as
`"pending,running -> paused"` (fsm.mjs lines 18-22). -/
def parseRule (rule : String) : FSMRule :=
  let parts := (jsSplit rule "->").map jsTrim
  let fromStr := parts.headD ""
  let toState := (parts.drop 1).headD ""
  { fromStates := (jsSplit fromStr ",").map jsTrim, toState := toState }

/-- The FSM's transition table: action name to parsed rule, in insertion order. -/
abbrev FSMTable : Type := List (String × FSMRule)

/-- The `FSM` constructor (fsm.mjs lines 15-23). -/
def mkFSM (transitions : List (String × String)) : FSMTable :=
  transitions.map (fun p => (p.1, parseRule p.2))

/-- Result object of `FSM.transition` (fsm.mjs lines 31-47). -/
structure TransitionResult where
  success : Bool
  fromState : String
  toState : Option String := none
  error : Option String := none
deriving Repr, DecidableEq

/-- The failure message built at fsm.mjs line 42. -/
def fsmFailMsg (action currentState : String) (fromStates : List String) : String :=
  "Cannot " ++ action ++ " from " ++ quoteChar ++ currentState ++ quoteChar ++
    ". Valid: " ++ ", ".intercalate fromStates

/-- `FSM.transition(currentState, action)` (fsm.mjs lines 31-47). -/
def FSM.transition (fsm : FSMTable) (currentState action : String) : TransitionResult :=
  match assocFind fsm action with
  | none =>
    { success := false, fromState := currentState,
      error := some ("Unknown action: " ++ action) }
  | some rule =>
    if rule.fromStates.contains currentState then
      { success := true, fromState := currentState, toState := some rule.toState }
    else
      { success := false, fromState := currentState,
        error := some (fsmFailMsg action currentState rule.fromStates) }

/-- `FSM.validActions(currentState)` (fsm.mjs lines 52-60). -/
def FSM.validActions (fsm : FSMTable) (currentState : String) : List String :=
  (fsm.filter (fun p => p.2.fromStates.contains currentState)).map Prod.fst

/-! ## Session lifecycle (plugins/agent/models/session.mjs) -/

/-- The session FSM table exactly as constructed at session.mjs lines 18-27. -/
def sessionFSM : FSMTable :=
  mkFSM
    [ ("pause", "pending,running -> paused"),
      ("resume", "paused -> pending"),
      ("retry", "success,error -> pending"),
      ("stop", "pending,running,paused -> stopped"),
      ("run", "stopped -> running"),
      ("start", "pending -> running"),
      ("complete", "running -> success"),
      ("fail", "running -> error") ]

/-- The `lastTransition` stamp recorded by `SessionModel.transition`. -/
structure TransitionStamp where
  action : String
  fromState : String
  toState : String
  timestamp : String
deriving Repr, DecidableEq

/-- The session fields touched by the lifecycle manager. -/
structure SessionRec where
  status : String
  lastTransition : Option TransitionStamp := none
deriving Repr, DecidableEq

/-- Result of `SessionModel.transition` (session.mjs lines 66-95). -/
structure ModelTransitionResult where
  success : Bool
  oldState : Option String := none
  newState : Option String := none
  error : Option String := none
deriving Repr, DecidableEq

/-- `SessionModel.transition(id, action)` on a loaded session (session.mjs
lines 66-95): run the FSM; on failure report and leave the session as it was;
on success set the status, stamp `lastTransition`, and save.  The timestamp is
passed in (`new Date().toISOString()` in the source). -/
def sessionModelTransition (sess : SessionRec) (action : String) (now : String) :
    ModelTransitionResult × SessionRec :=
  let currentState := sess.status
  let result := FSM.transition sessionFSM currentState action
  if result.success then
    match result.toState with
    | some toState =>
      ({ success := true, oldState := some result.fromState, newState := some toState },
       { status := toState,
         lastTransition := some ⟨action, result.fromState, toState, now⟩ })
    | none =>
      ({ success := true, oldState := some result.fromState, newState := none }, sess)
  else
    ({ success := false, oldState := some currentState, error := result.error }, sess)

/-- The session FSM table as written in the specification (§4.3). -/
def specTable : List (String × List String × String) :=
  [ ("start", ["pending"], "running"),
    ("complete", ["running"], "success"),
    ("fail", ["running"], "error"),
    ("pause", ["pending", "running"], "paused"),
    ("resume", ["paused"], "pending"),
    ("stop", ["pending", "running", "paused"], "stopped"),
    ("run", ["stopped"], "running"),
    ("retry", ["success", "error"], "pending") ]

/-- `sessionFSM` with the rule strings parsed, for computation in proofs. -/
def sessionFSMParsed : FSMTable :=
  [ ("pause", ⟨["pending", "running"], "paused"⟩),
    ("resume", ⟨["paused"], "pending"⟩),
    ("retry", ⟨["success", "error"], "pending"⟩),
    ("stop", ⟨["pending", "running", "paused"], "stopped"⟩),
    ("run", ⟨["stopped"], "running"⟩),
    ("start", ⟨["pending"], "running"⟩),
    ("complete", ⟨["running"], "success"⟩),
    ("fail", ⟨["running"], "error"⟩) ]

theorem sessionFSM_eq_parsed : sessionFSM = sessionFSMParsed := by decide

theorem transition_success_iff (fsm : FSMTable) (s a : String) :
    (FSM.transition fsm s a).success = true ↔
    ∃ r, assocFind fsm a = some r ∧ s ∈ r.fromStates := by
  cases h : assocFind fsm a with
  | none => simp [FSM.transition, h]
  | some r =>
    by_cases hc : r.fromStates.contains s
    · simp only [FSM.transition, h, if_pos hc]
      constructor
      · intro _
        exact ⟨r, rfl, by simpa using hc⟩
      · intro _
        trivial
    · simp only [FSM.transition, h, if_neg hc]
      constructor
      · intro hfalse
        exact absurd hfalse (by simp)
      · rintro ⟨r2, hr2, hs⟩
        injection hr2 with hr2
        subst hr2
        exact absurd (by simpa using hs) hc

theorem validActions_mem_iff (fsm : FSMTable) (s a : String) :
    a ∈ FSM.validActions fsm s ↔ ∃ r, (a, r) ∈ fsm ∧ s ∈ r.fromStates := by
  simp only [FSM.validActions, List.mem_map, List.mem_filter]
  constructor
  · rintro ⟨⟨a0, r0⟩, ⟨hmem, hc⟩, rfl⟩
    exact ⟨r0, hmem, by simpa using hc⟩
  · rintro ⟨r0, hmem, hs⟩
    exact ⟨(a, r0), ⟨hmem, by simpa using hs⟩, rfl⟩

theorem sessionFind_spec_iff (a s : String) :
    (∃ r, assocFind sessionFSM a = some r ∧ s ∈ r.fromStates) ↔
    (∃ row ∈ specTable, row.1 = a ∧ s ∈ row.2.1) := by
  rw [sessionFSM_eq_parsed]
  simp only [sessionFSMParsed, assocFind, specTable]
  split_ifs with h1 h2 h3 h4 h5 h6 h7 h8 <;> (try subst a) <;> simp_all

theorem sessionMem_find_iff (a s : String) :
    (∃ r, (a, r) ∈ sessionFSM ∧ s ∈ r.fromStates) ↔
    (∃ r, assocFind sessionFSM a = some r ∧ s ∈ r.fromStates) := by
  rw [sessionFSM_eq_parsed]
  constructor
  · rintro ⟨r, hmem, hs⟩
    simp only [sessionFSMParsed, List.mem_cons, List.not_mem_nil, or_false] at hmem
    rcases hmem with h | h | h | h | h | h | h | h <;>
      (rw [Prod.mk.injEq] at h; obtain ⟨ha, hr⟩ := h; subst ha; subst hr;
       exact ⟨_, by decide, hs⟩)
  · rintro ⟨r, hfind, hs⟩
    exact ⟨r, assocFind_some_mem hfind, hs⟩

example : FSM.transition sessionFSM "running" "pause" =
    { success := true, fromState := "running", toState := some "paused" } := by decide

example : (FSM.transition sessionFSM "stopped" "pause").error =
    some ("Cannot pause from " ++ quoteChar ++ "stopped" ++ quoteChar ++
      ". Valid: pending, running") := by decide

example : FSM.validActions sessionFSM "running" = ["pause", "stop", "complete", "fail"] := by
  decide

theorem sessionModelTransition_fail {sess : SessionRec} {a now : String}
    (h : (FSM.transition sessionFSM sess.status a).success = false) :
    (sessionModelTransition sess a now).2 = sess ∧
    (sessionModelTransition sess a now).1.success = false := by
  simp [sessionModelTransition, h]

/-- C3: `transition(s, a)` of the session FSM succeeds iff `a` is one of the
eight actions of the §4.3 table and `s` is in that action's from-set
(equivalently, iff `a ∈ validActions(s)`); on success the returned `to` state
is the table's to-state; on failure for a tabled action the error names the
table's admissible from-set; and a failed `SessionModel.transition` leaves the
session (in particular its status) unchanged. -/
theorem fsm_transition_matches_spec (s a : String) :
    ((FSM.transition sessionFSM s a).success = true ↔
      ∃ row ∈ specTable, row.1 = a ∧ s ∈ row.2.1) ∧
    ((FSM.transition sessionFSM s a).success = true ↔
      a ∈ FSM.validActions sessionFSM s) ∧
    (∀ row ∈ specTable, row.1 = a → s ∈ row.2.1 →
      (FSM.transition sessionFSM s a).toState = some row.2.2) ∧
    (∀ row ∈ specTable, row.1 = a → s ∉ row.2.1 →
      (FSM.transition sessionFSM s a).error = some (fsmFailMsg a s row.2.1)) ∧
    (∀ (sess : SessionRec) (now : String), sess.status = s →
      (FSM.transition sessionFSM s a).success = false →
      (sessionModelTransition sess a now).2 = sess) := by
  refine ⟨?_, ?_, ?_, ?_, ?_⟩
  · exact (transition_success_iff sessionFSM s a).trans (sessionFind_spec_iff a s)
  · exact (transition_success_iff sessionFSM s a).trans
      ((sessionMem_find_iff a s).symm.trans (validActions_mem_iff sessionFSM s a).symm)
  · intro row hrow ha hs
    simp only [specTable, List.mem_cons, List.not_mem_nil, or_false] at hrow
    rw [sessionFSM_eq_parsed]
    rcases hrow with h | h | h | h | h | h | h | h <;>
      (subst h; subst ha; simp at hs; simp [FSM.transition, sessionFSMParsed, assocFind, hs])
  · intro row hrow ha hs
    simp only [specTable, List.mem_cons, List.not_mem_nil, or_false] at hrow
    rw [sessionFSM_eq_parsed]
    rcases hrow with h | h | h | h | h | h | h | h <;>
      (subst h; subst ha; simp at hs;
       simp [FSM.transition, sessionFSMParsed, assocFind, hs, fsmFailMsg])
  · intro sess now hst hfail
    subst hst
    exact (sessionModelTransition_fail hfail).1

/-- Witness for C3 at concrete inputs: the action `pause` from state
`stopped` fails with the table's from-set named in the error and the session
unchanged, while `pause` from `running` succeeds to `paused`. -/
theorem fsm_transition_matches_spec_witness :
    (FSM.transition sessionFSM "stopped" "pause").error =
      some (fsmFailMsg "pause" "stopped" ["pending", "running"]) ∧
    (sessionModelTransition ⟨"stopped", none⟩ "pause" "t0").2 = ⟨"stopped", none⟩ ∧
    (FSM.transition sessionFSM "running" "pause").toState = some "paused" := by
  refine ⟨?_, ?_, ?_⟩
  · exact (fsm_transition_matches_spec "stopped" "pause").2.2.2.1
      ("pause", ["pending", "running"], "paused") (by decide) rfl (by decide)
  · exact (fsm_transition_matches_spec "stopped" "pause").2.2.2.2
      ⟨"stopped", none⟩ "t0" rfl (by decide)
  · exact (fsm_transition_matches_spec "running" "pause").2.2.1
      ("pause", ["pending", "running"], "paused") (by decide) rfl (by decide)

/-! ## Agent Execution Loop (plugins/agent/controllers/agent-loop.mjs)

Provider-choice merging (tick, lines 328-352) and the final no-tool-calls
branch (lines 451-464). -/

/-- One tool call proposed by the model. -/
structure ToolCallRef where
  id : String
  name : String
  argsStr : String
deriving Repr, DecidableEq

/-- A message of the session log / chat request.  JavaScript `null` or an
absent field is `none`; an absent `tool_calls` field is the empty list (the
merge always materialises the field, starting from `[]`). -/
structure ChatMessage where
  role : String
  content : Option String := none
  tool_calls : List ToolCallRef := []
  finish_reason : Option String := none
  timestamp : Option String := none
deriving Repr, DecidableEq

/-- One choice of a provider response. -/
structure Choice where
  content : Option String
  tool_calls : Option (List ToolCallRef)
  finish_reason : Option String
deriving Repr, DecidableEq

/-- JavaScript truthiness of a string-or-null value. -/
def strTruthy : Option String → Bool
  | none => false
  | some s => s ≠ ""

/-- Accumulator of the merge loop (agent-loop.mjs lines 330-344):
`combinedMessage.content`, `combinedMessage.tool_calls`, `finishReason`. -/
structure MergeAcc where
  content : String
  tool_calls : List ToolCallRef
  finishReason : String
deriving Repr, DecidableEq

/-- One iteration of `for (const choice of response.choices)`
(agent-loop.mjs lines 333-344). -/
def mergeStep (acc : MergeAcc) (c : Choice) : MergeAcc :=
  let content := if strTruthy c.content then acc.content ++ c.content.getD "" else acc.content
  let tcs :=
    match c.tool_calls with
    | some l => if l.length > 0 then acc.tool_calls ++ l else acc.tool_calls
    | none => acc.tool_calls
  let fr := if c.finish_reason = some "tool_calls" then "tool_calls" else acc.finishReason
  ⟨content, tcs, fr⟩

/-- The merged assistant message built from all provider choices
(agent-loop.mjs lines 330-347); `now` is the timestamp taken at line 346. -/
def mergeChoices (choices : List Choice) (now : String) : ChatMessage :=
  let acc := choices.foldl mergeStep ⟨"", [], "stop"⟩
  { role := "assistant", content := some acc.content, tool_calls := acc.tool_calls,
    finish_reason := some acc.finishReason, timestamp := some now }

theorem strFoldlAppend (l : List String) (a b : String) :
    List.foldl (fun r s => r ++ s) (a ++ b) l = a ++ List.foldl (fun r s => r ++ s) b l := by
  induction l generalizing b with
  | nil => simp
  | cons x xs ih => simp only [List.foldl_cons, String.append_assoc, ih]

theorem strJoin_cons (s : String) (l : List String) :
    String.join (s :: l) = s ++ String.join l := by
  have h := strFoldlAppend l s ""
  rw [String.append_empty] at h
  simp only [String.join, List.foldl_cons, String.empty_append]
  exact h

theorem mergeFold (cs : List Choice) (acc : MergeAcc) :
    (cs.foldl mergeStep acc).content =
      acc.content ++ String.join (cs.map (fun c => c.content.getD "")) ∧
    (cs.foldl mergeStep acc).tool_calls =
      acc.tool_calls ++ (cs.map (fun c => c.tool_calls.getD [])).flatten ∧
    (cs.foldl mergeStep acc).finishReason =
      (if cs.any (fun c => c.finish_reason = some "tool_calls") then "tool_calls"
       else acc.finishReason) := by
  induction cs generalizing acc with
  | nil => simp [String.join]
  | cons c rest ih =>
    obtain ⟨ih1, ih2, ih3⟩ := ih (mergeStep acc c)
    refine ⟨?_, ?_, ?_⟩
    · rw [List.foldl_cons, ih1, List.map_cons, strJoin_cons, ← String.append_assoc]
      congr 1
      cases hc : c.content with
      | none => simp [mergeStep, strTruthy, hc]
      | some s =>
        by_cases hs : s = ""
        · subst hs
          simp [mergeStep, strTruthy, hc]
        · simp [mergeStep, strTruthy, hc, hs]
    · rw [List.foldl_cons, ih2]
      cases hc : c.tool_calls with
      | none => simp [mergeStep, hc]
      | some l =>
        cases l with
        | nil => simp [mergeStep, hc]
        | cons x xs => simp [mergeStep, hc]
    · rw [List.foldl_cons, ih3]
      by_cases hf : c.finish_reason = some "tool_calls" <;> simp [mergeStep, hf]

/-- Counterexample to C2 as stated: a single choice with
`finish_reason: "length"` (no choice has reason `tool_calls`); the merged
message's `finish_reason` is `"stop"`, not the last choice's reason. -/
theorem merge_finishReason_counterexample :
    (mergeChoices [⟨some "x", none, some "length"⟩] "t0").content = some "x" ∧
    (mergeChoices [⟨some "x", none, some "length"⟩] "t0").tool_calls = [] ∧
    ¬ (mergeChoices [⟨some "x", none, some "length"⟩] "t0").finish_reason = some "length" := by
  decide

/-- C2 (amended): for every provider response, the merged assistant message's
content is the in-order concatenation of the choices' contents (null as
empty), its tool_calls are the in-order concatenation of the choices'
tool_call lists, and its finish_reason is `tool_calls` if any choice has
finish_reason `tool_calls`, else the initial default `stop` — the last
choice's finish_reason is never consulted. -/
theorem mergeChoices_spec (choices : List Choice) (now : String) :
    (mergeChoices choices now).content =
      some (String.join (choices.map (fun c => c.content.getD ""))) ∧
    (mergeChoices choices now).tool_calls =
      (choices.map (fun c => c.tool_calls.getD [])).flatten ∧
    (mergeChoices choices now).finish_reason =
      some (if choices.any (fun c => c.finish_reason = some "tool_calls") then "tool_calls"
            else "stop") := by
  obtain ⟨h1, h2, h3⟩ := mergeFold choices ⟨"", [], "stop"⟩
  refine ⟨?_, ?_, ?_⟩ <;> simp [mergeChoices, h1, h2, h3]

/-- Reading a JavaScript identifier from the lexical scope.  In an ES module
(strict mode) reading an identifier with no binding in scope throws a
`ReferenceError`. -/
def lookupVar (scope : List (String × String)) (name : String) : Except String String :=
  match assocFind scope name with
  | some v => Except.ok v
  | none => Except.error ("ReferenceError: " ++ name ++ " is not defined")

/-- The lexical scope visible at agent-loop.mjs line 459, restricted to the
binding the line reads.  The `let finishReason` of line 331 is declared inside
the provider-merge else-block (lines 289-352), whose scope has closed before
the no-tool-calls branch (lines 451-464) runs, and no enclosing scope declares
`finishReason`; so the scope carries no binding for it. -/
def scopeAtCompleteCheck : List (String × String) := []

/-- Result of the final branch of a tick. -/
structure TickOutcome where
  messages : List ChatMessage
  completeRequested : Bool
  isRunning : Bool
  thrown : Option String
deriving Repr, DecidableEq

/-- The no-tool-calls branch of `AgentLoop.tick` (agent-loop.mjs lines
451-464), taken when the merged message has no tool calls: push the message
and save (lines 453-455), then evaluate the identifier `finishReason`
(line 459); only if that yields `stop` or `end_turn` transition `complete`
(line 461) and stop the loop (line 462). -/
def tickNoToolCallsBranch (scope : List (String × String)) (messages : List ChatMessage)
    (combined : ChatMessage) (running : Bool) : TickOutcome :=
  let msgs := messages ++ [combined]
  match lookupVar scope "finishReason" with
  | Except.error e => ⟨msgs, false, running, some e⟩
  | Except.ok fr =>
    if fr = "stop" || fr = "end_turn" then ⟨msgs, true, false, none⟩
    else ⟨msgs, false, running, none⟩

/-- C1 (code bug): the S1 scenario.  The provider returns one choice
`{content: "Pong", finish_reason: "stop"}`; the merged message has no tool
calls and finish_reason `stop`, so the no-tool-calls branch runs.  The branch
appends the assistant message, but then throws
`ReferenceError: finishReason is not defined` (the line-331 binding is out of
scope at line 459), so the `complete` transition is never reached and the
loop keeps running: the session does not end in SUCCESS as the claim and the
spec require. -/
theorem agentLoop_finishReason_bug :
    (mergeChoices [⟨some "Pong", none, some "stop"⟩] "t1").tool_calls = [] ∧
    (mergeChoices [⟨some "Pong", none, some "stop"⟩] "t1").finish_reason = some "stop" ∧
    tickNoToolCallsBranch scopeAtCompleteCheck
        [{ role := "user", content := some "Ping", timestamp := some "t0" }]
        (mergeChoices [⟨some "Pong", none, some "stop"⟩] "t1") true =
      { messages := [{ role := "user", content := some "Ping", timestamp := some "t0" },
                     mergeChoices [⟨some "Pong", none, some "stop"⟩] "t1"],
        completeRequested := false,
        isRunning := true,
        thrown := some "ReferenceError: finishReason is not defined" } := by
  decide

/-! ## Command allowlist (plugins/shell/terminal-allowlist.mjs)

`parseCommandLine`, `getBaseCommand`, `matchesPattern`, `checkSingleCommand`
and `checkCommand`.  JavaScript `RegExp` construction and matching is
abstracted as a `RegexEngine` oracle; the `/body/flags` form test on the
pattern string is concrete. -/

/-- Oracle for `new RegExp(body, flags)` followed by `.test`: `none` models an
invalid regular expression (`parseRegexPattern` then returns null and literal
matching applies). -/
abbrev RegexEngine := String → String → Option (String → Bool)

/-- Splits a pattern string of the form `/body/flags` (the regex
`^\/(.+)\/([a-z]*)$` of terminal-allowlist.mjs lines 685-687): the greedy
`(.+)` runs to the last `/` and the flags after it must all be lowercase
letters. -/
def regexFormSplit (s : String) : Option (String × String) :=
  match s.toList with
  | [] => none
  | c0 :: rest =>
    if c0 = '/' && rest.contains '/' then
      let revAfter := rest.reverse.takeWhile (fun c => c ≠ '/')
      let flags := revAfter.reverse
      let body := rest.take (rest.length - revAfter.length - 1)
      if body.length ≥ 1 && flags.all (fun c => 'a' ≤ c && c ≤ 'z') then
        some (String.mk body, String.mk flags)
      else none
    else none

example : regexFormSplit "/^ls/i" = some ("^ls", "i") := by decide
example : regexFormSplit "ls" = none := by decide
example : regexFormSplit "/x/" = some ("x", "") := by decide

/-- `parseRegexPattern(str)` (terminal-allowlist.mjs lines 685-695). -/
def parseRegexPattern (re : RegexEngine) (str : String) : Option (String → Bool) :=
  match regexFormSplit str with
  | none => none
  | some (body, flags) => re body flags

/-- Index of the first occurrence of character `c` in `l`. -/
def findCharIdx (l : List Char) (c : Char) : Option Nat :=
  match l with
  | [] => none
  | x :: rest => if x = c then some 0 else (findCharIdx rest c).map (· + 1)

/-- Drop `p` from the front of `l` when it is a prefix (a JS
`replace(/^pat/, "")` for a literal pattern). -/
def dropPrefixChars (l p : List Char) : List Char :=
  if p.isPrefixOf l then l.drop p.length else l

/-- `getBaseCommand(command)` (terminal-allowlist.mjs lines 734-749): trim,
strip one level of quotes, take the first whitespace-separated token, strip a
leading `./` or `.\`, and normalise backslashes to slashes. -/
def getBaseCommand (command : String) : String :=
  let cs := (jsTrim command).toList
  let cs2 :=
    match cs with
    | [] => cs
    | q :: rest =>
      if q = '"' || q = Char.ofNat 39 then
        match findCharIdx rest q with
        | some i => rest.take i
        | none => cs
      else cs
  let base := cs2.takeWhile (fun c => !isWsChar c)
  let base1 := dropPrefixChars base ['.', '/']
  let base2 := dropPrefixChars base1 ['.', '\\']
  String.mk (base2.map (fun c => if c = '\\' then '/' else c))

example : getBaseCommand "ls -la" = "ls" := by decide
example : getBaseCommand "./run.sh x" = "run.sh" := by decide
example : getBaseCommand "\"my cmd\" arg" = "my" := by decide

/-- JavaScript `String.prototype.startsWith`. -/
def jsStartsWith (s pre : String) : Bool :=
  pre.toList.isPrefixOf s.toList

/-- JavaScript `String.prototype.endsWith`. -/
def jsEndsWith (s suf : String) : Bool :=
  suf.toList.reverse.isPrefixOf s.toList.reverse

/-- `matchesPattern(command, pattern)` (terminal-allowlist.mjs lines
751-764). -/
def matchesPattern (re : RegexEngine) (command pattern : String) : Bool :=
  match parseRegexPattern re pattern with
  | some test => test command
  | none =>
    let baseCmd := getBaseCommand command
    let patternBase := getBaseCommand pattern
    jsStartsWith command pattern || baseCmd == patternBase ||
      jsEndsWith baseCmd ("/" ++ patternBase) || jsEndsWith baseCmd ("\\" ++ patternBase)

/-- Scanner for one global inline-substitution regex of `parseCommandLine`
(terminal-allowlist.mjs lines 700-705): an occurrence of the opening token
`op`, at least one character other than the closing character `cl`, then
`cl`; returns the captured inner texts in order. -/
def scanInlineAux (op : List Char) (cl : Char) (fuel : Nat) (s : List Char)
    (acc : List (List Char)) : List (List Char) :=
  match fuel, s with
  | 0, _ => acc
  | _, [] => acc
  | fuel + 1, c :: rest =>
    if op.isPrefixOf (c :: rest) then
      let after := (c :: rest).drop op.length
      let inner := after.takeWhile (fun x => x ≠ cl)
      if inner.length ≥ 1 && (after.drop inner.length).head? = some cl then
        scanInlineAux op cl fuel (after.drop (inner.length + 1)) (acc ++ [inner])
      else
        scanInlineAux op cl fuel rest acc
    else
      scanInlineAux op cl fuel rest acc

/-- All matches of one inline pattern over the command line. -/
def scanInline (op : List Char) (cl : Char) (s : List Char) : List (List Char) :=
  scanInlineAux op cl (s.length + 1) s []

/-- Splitter for `commandLine.split(/(\|\||&&|;|\|)/)` keeping only the
non-separator parts (terminal-allowlist.mjs lines 717-729 then skip the
separator tokens). -/
def splitSepsAux (fuel : Nat) (s : List Char) (cur : List Char) (acc : List String) :
    List String :=
  match fuel, s with
  | 0, _ => acc ++ [String.mk cur.reverse]
  | _, [] => acc ++ [String.mk cur.reverse]
  | fuel + 1, c :: rest =>
    if c = '|' && rest.head? = some '|' then
      splitSepsAux fuel (rest.drop 1) [] (acc ++ [String.mk cur.reverse])
    else if c = '&' && rest.head? = some '&' then
      splitSepsAux fuel (rest.drop 1) [] (acc ++ [String.mk cur.reverse])
    else if c = ';' then
      splitSepsAux fuel rest [] (acc ++ [String.mk cur.reverse])
    else if c = '|' then
      splitSepsAux fuel rest [] (acc ++ [String.mk cur.reverse])
    else
      splitSepsAux fuel rest (c :: cur) acc

/-- `parseCommandLine(commandLine)` (terminal-allowlist.mjs lines 697-732):
inline-substitution bodies (`$(…)`, backticks, `<(…)`, `>(…)`) in pattern
order, then the separator-split parts that are non-empty after trimming. -/
def parseCommandLine (commandLine : String) : List String :=
  let cs := commandLine.toList
  let tick := Char.ofNat 96
  let inline :=
    scanInline ['$', '('] ')' cs ++ scanInline [tick] tick cs ++
      scanInline ['<', '('] ')' cs ++ scanInline ['>', '('] ')' cs
  let inlineCmds := inline.map (fun l => jsTrim (String.mk l))
  let parts := (splitSepsAux (cs.length + 1) cs [] []).map jsTrim
  inlineCmds ++ parts.filter (fun p => p ≠ "")

example : parseCommandLine "ls;foo" = ["ls", "foo"] := by decide
example : parseCommandLine "a && b || c | d" = ["a", "b", "c", "d"] := by decide
example : parseCommandLine "echo $(rm -rf /)" = ["rm -rf /", "echo $(rm -rf /)"] := by decide
example : parseCommandLine "" = [] := by decide

/-- An allowlist rule value: `true`/`false`, `null`, or an object
`{approve?: bool, matchCommandLine?: bool}` (absent fields are `none` /
`false`). -/
inductive RuleValue where
  | bool (b : Bool)
  | null
  | obj (approve : Option Bool) (matchCommandLine : Bool)
deriving Repr, DecidableEq

/-- An allowlist: pattern to rule value, in object-key order. -/
abbrev Allowlist := List (String × RuleValue)

/-- The two `continue` filters at the top of the rule loop
(terminal-allowlist.mjs lines 770-779): object rules participate in the
full-command check only with `matchCommandLine` truthy, and in the
sub-command check only without it. -/
def cscSkip (v : RuleValue) (checkFullCommand : Bool) : Bool :=
  match v with
  | RuleValue.obj _ mcl => (checkFullCommand && !mcl) || (!checkFullCommand && mcl)
  | _ => false

/-- The rule loop of `checkSingleCommand` (terminal-allowlist.mjs lines
767-796), returning the final `approved` tri-state and `matchedRule`; a
matching deny breaks out immediately. -/
def cscLoop (re : RegexEngine) (command : String) (checkFullCommand : Bool) :
    Allowlist → Option Bool → Option String → Option Bool × Option String
  | [], acc, mr => (acc, mr)
  | (p, v) :: rest, acc, mr =>
    if cscSkip v checkFullCommand then
      cscLoop re command checkFullCommand rest acc mr
    else if matchesPattern re command p then
      match v with
      | RuleValue.null => cscLoop re command checkFullCommand rest acc (some p)
      | RuleValue.obj a _ =>
        if a = some false then (a, some p)
        else cscLoop re command checkFullCommand rest a (some p)
      | RuleValue.bool b =>
        if b = false then (some false, some p)
        else cscLoop re command checkFullCommand rest (some b) (some p)
    else
      cscLoop re command checkFullCommand rest acc mr

/-- Result object of `checkSingleCommand` (terminal-allowlist.mjs lines
798-807). -/
structure SingleCheck where
  approved : Bool
  denied : Bool
  matchedRule : Option String
  reason : String
deriving Repr, DecidableEq

/-- `checkSingleCommand(command, allowlist, checkFullCommand)`
(terminal-allowlist.mjs lines 766-808). -/
def checkSingleCommand (re : RegexEngine) (command : String) (allowlist : Allowlist)
    (checkFullCommand : Bool) : SingleCheck :=
  let r := cscLoop re command checkFullCommand allowlist none none
  { approved := r.1 = some true,
    denied := r.1 = some false,
    matchedRule := r.2,
    reason :=
      if r.1 = some true then "Approved by rule: " ++ r.2.getD "null"
      else if r.1 = some false then "Denied by rule: " ++ r.2.getD "null"
      else "No matching rule found" }

/-- Result object of `checkCommand` (terminal-allowlist.mjs lines 841-850),
with `details` flattened into the last two fields. -/
structure CheckResult where
  approved : Bool
  reason : String
  commandLine : String
  subCommands : List String
  fullLineCheck : SingleCheck
  subCommandChecks : List (String × SingleCheck)
deriving Repr, DecidableEq

/-- `checkCommand(commandLine, options)` with the allowlist already resolved
(terminal-allowlist.mjs lines 810-851). -/
def checkCommand (re : RegexEngine) (commandLine : String) (allowlist : Allowlist) :
    CheckResult :=
  let subCommands := parseCommandLine commandLine
  let fullLineCheck := checkSingleCommand re commandLine allowlist true
  let subCommandChecks := subCommands.map (fun c => (c, checkSingleCommand re c allowlist false))
  let anyDenied := fullLineCheck.denied || subCommandChecks.any (fun c => c.2.denied)
  let allSubCommandsApproved :=
    decide (subCommandChecks.length > 0) && subCommandChecks.all (fun c => c.2.approved)
  let fullLineApproved := fullLineCheck.approved
  let approved := !anyDenied && (allSubCommandsApproved || fullLineApproved)
  let reason :=
    if anyDenied then
      let deniedCheck :=
        if fullLineCheck.denied then fullLineCheck
        else (((subCommandChecks.find? (fun c => c.2.denied)).map Prod.snd).getD fullLineCheck)
      "Command denied: " ++ deniedCheck.reason
    else if approved then
      if fullLineApproved then "Full command line approved: " ++ fullLineCheck.matchedRule.getD "null"
      else "All sub-commands approved"
    else "No matching approval rule found - requires explicit approval"
  { approved := approved, reason := reason, commandLine := commandLine,
    subCommands := subCommands, fullLineCheck := fullLineCheck,
    subCommandChecks := subCommandChecks }

/-- A regex engine for concrete test inputs whose patterns are all literal:
never consulted, returns `none`. -/
def reNone : RegexEngine := fun _ _ => none

example :
    (checkCommand reNone "rm -rf /" [("ls", RuleValue.bool true), ("rm", RuleValue.bool false)]).approved
      = false := by decide

example :
    (checkCommand reNone "rm -rf /" [("ls", RuleValue.bool true), ("rm", RuleValue.bool false)]).reason
      = "Command denied: Denied by rule: rm" := by decide

example :
    (checkCommand reNone "ls -la" [("ls", RuleValue.bool true)]).approved = true := by decide

example :
    (checkCommand reNone "ls;foo" [("ls", RuleValue.bool true)]).approved = true := by decide

/-- The approve/deny value a rule resolves to: booleans directly, objects via
their `approve` field, `null` resolves to nothing. -/
def ruleVal : RuleValue → Option Bool
  | RuleValue.bool b => some b
  | RuleValue.null => none
  | RuleValue.obj a _ => a

/-- Whether a rule value is `null`. -/
def isNullRule : RuleValue → Bool
  | RuleValue.null => true
  | _ => false

/-- A rule denies the command in the given check kind: it participates (is
not filtered by `matchCommandLine`), matches, and resolves to deny. -/
def ruleDenies (re : RegexEngine) (cmd : String) (full : Bool) (p : String × RuleValue) : Bool :=
  !(cscSkip p.2 full) && matchesPattern re cmd p.1 && (ruleVal p.2 = some false)

/-- The value resolved by the last participating, matching, non-null rule
(starting from `acc`); with no deny present this is what the rule loop
computes. -/
def lastSetVal (re : RegexEngine) (cmd : String) (full : Bool) :
    Allowlist → Option Bool → Option Bool
  | [], acc => acc
  | (p, v) :: rest, acc =>
    if !(cscSkip v full) && matchesPattern re cmd p && !(isNullRule v) then
      lastSetVal re cmd full rest (ruleVal v)
    else
      lastSetVal re cmd full rest acc

theorem cscLoop_denied_iff (re : RegexEngine) (cmd : String) (full : Bool)
    (al : Allowlist) (acc : Option Bool) (mr : Option String) (hacc : acc ≠ some false) :
    ((cscLoop re cmd full al acc mr).1 = some false) ↔
    al.any (ruleDenies re cmd full) = true := by
  induction al generalizing acc mr with
  | nil => simp [cscLoop, hacc]
  | cons hd tl ih =>
    obtain ⟨p, v⟩ := hd
    by_cases hskip : cscSkip v full = true
    · have hd2 : ruleDenies re cmd full (p, v) = false := by
        simp [ruleDenies, hskip]
      simp only [cscLoop, hskip, if_true, List.any_cons, hd2, Bool.false_or]
      exact ih acc mr hacc
    · simp only [Bool.not_eq_true] at hskip
      by_cases hm : matchesPattern re cmd p = true
      · cases v with
        | null =>
          have hd2 : ruleDenies re cmd full (p, RuleValue.null) = false := by
            simp [ruleDenies, ruleVal]
          simp only [cscLoop, hskip, Bool.false_eq_true, if_false, hm, if_true,
            List.any_cons, hd2, Bool.false_or]
          exact ih acc (some p) hacc
        | bool b =>
          cases b with
          | false =>
            have hd2 : ruleDenies re cmd full (p, RuleValue.bool false) = true := by
              simp [ruleDenies, ruleVal, cscSkip, hm]
            simp [cscLoop, hskip, hm, hd2]
          | true =>
            have hd2 : ruleDenies re cmd full (p, RuleValue.bool true) = false := by
              simp [ruleDenies, ruleVal]
            simp only [cscLoop, hskip, Bool.false_eq_true, if_false, hm, if_true,
              List.any_cons, hd2, Bool.false_or]
            simpa using ih (some true) (some p) (by simp)
        | obj a mcl =>
          by_cases hafalse : a = some false
          · subst hafalse
            have hd2 : ruleDenies re cmd full (p, RuleValue.obj (some false) mcl) = true := by
              simp [ruleDenies, ruleVal, hm, hskip]
            simp [cscLoop, hskip, hm, hd2]
          · have hd2 : ruleDenies re cmd full (p, RuleValue.obj a mcl) = false := by
              simp [ruleDenies, ruleVal, hafalse]
            simp only [cscLoop, hskip, Bool.false_eq_true, if_false, hm, if_true, hafalse,
              List.any_cons, hd2, Bool.false_or]
            exact ih a (some p) hafalse
      · simp only [Bool.not_eq_true] at hm
        have hd2 : ruleDenies re cmd full (p, v) = false := by
          simp [ruleDenies, hm]
        simp only [cscLoop, hskip, Bool.false_eq_true, if_false, hm, List.any_cons, hd2,
          Bool.false_or]
        exact ih acc mr hacc

theorem cscLoop_nil (re : RegexEngine) (cmd : String) (full : Bool)
    (acc : Option Bool) (mr : Option String) :
    cscLoop re cmd full [] acc mr = (acc, mr) := rfl

theorem cscLoop_cons_skip {v : RuleValue} {full : Bool} (re : RegexEngine) (cmd p : String)
    (tl : Allowlist) (acc : Option Bool) (mr : Option String)
    (hskip : cscSkip v full = true) :
    cscLoop re cmd full ((p, v) :: tl) acc mr = cscLoop re cmd full tl acc mr := by
  simp [cscLoop, hskip]

theorem cscLoop_cons_nomatch {v : RuleValue} {full : Bool} {re : RegexEngine} {cmd p : String}
    (tl : Allowlist) (acc : Option Bool) (mr : Option String)
    (hskip : cscSkip v full = false) (hm : matchesPattern re cmd p = false) :
    cscLoop re cmd full ((p, v) :: tl) acc mr = cscLoop re cmd full tl acc mr := by
  simp [cscLoop, hskip, hm]

theorem cscLoop_cons_null {full : Bool} {re : RegexEngine} {cmd p : String}
    (tl : Allowlist) (acc : Option Bool) (mr : Option String)
    (hskip : cscSkip RuleValue.null full = false) (hm : matchesPattern re cmd p = true) :
    cscLoop re cmd full ((p, RuleValue.null) :: tl) acc mr =
      cscLoop re cmd full tl acc (some p) := by
  simp [cscLoop, hskip, hm]

theorem cscLoop_cons_bool_false {full : Bool} {re : RegexEngine} {cmd p : String}
    (tl : Allowlist) (acc : Option Bool) (mr : Option String)
    (hskip : cscSkip (RuleValue.bool false) full = false)
    (hm : matchesPattern re cmd p = true) :
    cscLoop re cmd full ((p, RuleValue.bool false) :: tl) acc mr = (some false, some p) := by
  simp [cscLoop, hskip, hm]

theorem cscLoop_cons_bool_true {full : Bool} {re : RegexEngine} {cmd p : String}
    (tl : Allowlist) (acc : Option Bool) (mr : Option String)
    (hskip : cscSkip (RuleValue.bool true) full = false)
    (hm : matchesPattern re cmd p = true) :
    cscLoop re cmd full ((p, RuleValue.bool true) :: tl) acc mr =
      cscLoop re cmd full tl (some true) (some p) := by
  simp [cscLoop, hskip, hm]

theorem cscLoop_cons_obj_deny {full mcl : Bool} {re : RegexEngine} {cmd p : String}
    (tl : Allowlist) (acc : Option Bool) (mr : Option String)
    (hskip : cscSkip (RuleValue.obj (some false) mcl) full = false)
    (hm : matchesPattern re cmd p = true) :
    cscLoop re cmd full ((p, RuleValue.obj (some false) mcl) :: tl) acc mr =
      (some false, some p) := by
  simp [cscLoop, hskip, hm]

theorem cscLoop_cons_obj_other {full mcl : Bool} {a : Option Bool} {re : RegexEngine}
    {cmd p : String} (tl : Allowlist) (acc : Option Bool) (mr : Option String)
    (hskip : cscSkip (RuleValue.obj a mcl) full = false)
    (hm : matchesPattern re cmd p = true) (ha : a ≠ some false) :
    cscLoop re cmd full ((p, RuleValue.obj a mcl) :: tl) acc mr =
      cscLoop re cmd full tl a (some p) := by
  simp [cscLoop, hskip, hm, ha]

theorem cscLoop_denied_rule (re : RegexEngine) (cmd : String) (full : Bool)
    (al : Allowlist) (acc : Option Bool) (mr : Option String) (hacc : acc ≠ some false)
    (h : (cscLoop re cmd full al acc mr).1 = some false) :
    ∃ r v, (r, v) ∈ al ∧ ruleDenies re cmd full (r, v) = true ∧
      (cscLoop re cmd full al acc mr).2 = some r := by
  induction al generalizing acc mr with
  | nil => exact absurd (by simpa [cscLoop_nil] using h) hacc
  | cons hd tl ih =>
    obtain ⟨p, v⟩ := hd
    by_cases hskip : cscSkip v full = true
    · rw [cscLoop_cons_skip _ _ _ _ _ _ hskip] at h ⊢
      obtain ⟨r, v2, hmem, hd2, hsnd⟩ := ih acc mr hacc h
      exact ⟨r, v2, List.mem_cons_of_mem _ hmem, hd2, hsnd⟩
    · simp only [Bool.not_eq_true] at hskip
      by_cases hm : matchesPattern re cmd p = true
      · cases v with
        | null =>
          rw [cscLoop_cons_null _ _ _ hskip hm] at h ⊢
          obtain ⟨r, v2, hmem, hd2, hsnd⟩ := ih acc (some p) hacc h
          exact ⟨r, v2, List.mem_cons_of_mem _ hmem, hd2, hsnd⟩
        | bool b =>
          cases b with
          | false =>
            rw [cscLoop_cons_bool_false _ _ _ hskip hm]
            refine ⟨p, RuleValue.bool false, List.mem_cons_self _ _, ?_, rfl⟩
            simp [ruleDenies, ruleVal, hm, hskip]
          | true =>
            rw [cscLoop_cons_bool_true _ _ _ hskip hm] at h ⊢
            obtain ⟨r, v2, hmem, hd2, hsnd⟩ := ih (some true) (some p) (by simp) h
            exact ⟨r, v2, List.mem_cons_of_mem _ hmem, hd2, hsnd⟩
        | obj a mcl =>
          by_cases hafalse : a = some false
          · subst hafalse
            rw [cscLoop_cons_obj_deny _ _ _ hskip hm]
            refine ⟨p, RuleValue.obj (some false) mcl, List.mem_cons_self _ _, ?_, rfl⟩
            simp [ruleDenies, ruleVal, hm, hskip]
          · rw [cscLoop_cons_obj_other _ _ _ hskip hm hafalse] at h ⊢
            obtain ⟨r, v2, hmem, hd2, hsnd⟩ := ih a (some p) hafalse h
            exact ⟨r, v2, List.mem_cons_of_mem _ hmem, hd2, hsnd⟩
      · simp only [Bool.not_eq_true] at hm
        rw [cscLoop_cons_nomatch _ _ _ hskip hm] at h ⊢
        obtain ⟨r, v2, hmem, hd2, hsnd⟩ := ih acc mr hacc h
        exact ⟨r, v2, List.mem_cons_of_mem _ hmem, hd2, hsnd⟩

theorem cscLoop_nodeny (re : RegexEngine) (cmd : String) (full : Bool)
    (al : Allowlist) (acc : Option Bool) (mr : Option String)
    (hnd : al.any (ruleDenies re cmd full) = false) :
    (cscLoop re cmd full al acc mr).1 = lastSetVal re cmd full al acc := by
  induction al generalizing acc mr with
  | nil => simp [cscLoop_nil, lastSetVal]
  | cons hd tl ih =>
    obtain ⟨p, v⟩ := hd
    simp only [List.any_cons, Bool.or_eq_false_iff] at hnd
    obtain ⟨hnd1, hnd2⟩ := hnd
    by_cases hskip : cscSkip v full = true
    · rw [cscLoop_cons_skip _ _ _ _ _ _ hskip, lastSetVal, if_neg (by simp [hskip])]
      exact ih acc mr hnd2
    · simp only [Bool.not_eq_true] at hskip
      by_cases hm : matchesPattern re cmd p = true
      · cases v with
        | null =>
          rw [cscLoop_cons_null _ _ _ hskip hm, lastSetVal,
            if_neg (by simp [isNullRule])]
          exact ih acc (some p) hnd2
        | bool b =>
          cases b with
          | false => simp [ruleDenies, ruleVal, hm, hskip] at hnd1
          | true =>
            rw [cscLoop_cons_bool_true _ _ _ hskip hm, lastSetVal,
              if_pos (by simp [isNullRule, hskip, hm])]
            exact ih (some true) (some p) hnd2
        | obj a mcl =>
          by_cases hafalse : a = some false
          · subst hafalse
            simp [ruleDenies, ruleVal, hm, hskip] at hnd1
          · rw [cscLoop_cons_obj_other _ _ _ hskip hm hafalse, lastSetVal,
              if_pos (by simp [isNullRule, hskip, hm])]
            exact ih a (some p) hnd2
      · simp only [Bool.not_eq_true] at hm
        rw [cscLoop_cons_nomatch _ _ _ hskip hm, lastSetVal, if_neg (by simp [hm])]
        exact ih acc mr hnd2

theorem myany_map {α β : Type} (l : List α) (f : α → β) (p : β → Bool) :
    (l.map f).any p = l.any (fun x => p (f x)) := by
  induction l with
  | nil => rfl
  | cons hd tl ih => simp [List.any_cons, ih]

theorem myall_map {α β : Type} (l : List α) (f : α → β) (p : β → Bool) :
    (l.map f).all p = l.all (fun x => p (f x)) := by
  induction l with
  | nil => rfl
  | cons hd tl ih => simp [List.all_cons, ih]

theorem myany_congr {α : Type} (l : List α) (p q : α → Bool) (h : ∀ x ∈ l, p x = q x) :
    l.any p = l.any q := by
  induction l with
  | nil => rfl
  | cons hd tl ih =>
    simp only [List.any_cons, h hd (List.mem_cons_self hd tl)]
    rw [ih (fun x hx => h x (List.mem_cons_of_mem hd hx))]

theorem find_some_of_any {α : Type} {l : List α} {p : α → Bool} (h : l.any p = true) :
    ∃ y, l.find? p = some y ∧ p y = true ∧ y ∈ l := by
  induction l with
  | nil => simp at h
  | cons hd tl ih =>
    by_cases hp : p hd = true
    · exact ⟨hd, by simp [List.find?, hp], hp, List.mem_cons_self _ _⟩
    · simp only [List.any_cons, hp, Bool.false_or] at h
      obtain ⟨y, hf, hy, hmem⟩ := ih h
      refine ⟨y, ?_, hy, List.mem_cons_of_mem _ hmem⟩
      simp only [List.find?]
      rw [show p hd = false by simpa using hp]
      exact hf

theorem checkSingle_denied_eq (re : RegexEngine) (cmd : String) (al : Allowlist)
    (full : Bool) :
    (checkSingleCommand re cmd al full).denied = al.any (ruleDenies re cmd full) := by
  apply Bool.coe_iff_coe.mp
  show (decide ((cscLoop re cmd full al none none).1 = some false) = true) ↔ _
  rw [decide_eq_true_eq]
  exact cscLoop_denied_iff re cmd full al none none (by simp)

theorem checkSingle_approved_iff (re : RegexEngine) (cmd : String) (al : Allowlist)
    (full : Bool) (hnd : al.any (ruleDenies re cmd full) = false) :
    ((checkSingleCommand re cmd al full).approved = true ↔
      lastSetVal re cmd full al none = some true) := by
  show (decide ((cscLoop re cmd full al none none).1 = some true) = true) ↔ _
  rw [decide_eq_true_eq, cscLoop_nodeny re cmd full al none none hnd]

theorem checkSingle_denied_reason (re : RegexEngine) (cmd : String) (al : Allowlist)
    (full : Bool) (h : (checkSingleCommand re cmd al full).denied = true) :
    ∃ r v, (r, v) ∈ al ∧ ruleDenies re cmd full (r, v) = true ∧
      (checkSingleCommand re cmd al full).reason = "Denied by rule: " ++ r := by
  have hd : (cscLoop re cmd full al none none).1 = some false := by
    rw [show (checkSingleCommand re cmd al full).denied =
        decide ((cscLoop re cmd full al none none).1 = some false) from rfl,
      decide_eq_true_eq] at h
    exact h
  obtain ⟨r, v, hmem, hden, hsnd⟩ := cscLoop_denied_rule re cmd full al none none (by simp) hd
  refine ⟨r, v, hmem, hden, ?_⟩
  show (if (cscLoop re cmd full al none none).1 = some true then
          "Approved by rule: " ++ (cscLoop re cmd full al none none).2.getD "null"
        else if (cscLoop re cmd full al none none).1 = some false then
          "Denied by rule: " ++ (cscLoop re cmd full al none none).2.getD "null"
        else "No matching rule found") = "Denied by rule: " ++ r
  rw [if_neg (by simp [hd]), if_pos hd, hsnd]
  rfl

/-- C4 (amended): `checkCommand` approves iff no participating matching rule
denies the full line or any parsed sub-command, and either the sub-command
list is non-empty with every sub-command's last matching applicable non-null
rule resolving to approve, or the full line is approved the same way by the
full-line check — in which object rules take part only with
`matchCommandLine: true` but plain boolean rules always take part; any deny
yields rejection with the matched deny rule named in the reason. -/
theorem checkCommand_approval_spec (re : RegexEngine) (al : Allowlist) (cl : String) :
    ((checkCommand re cl al).approved = true ↔
      ((∀ p ∈ al, ¬ ruleDenies re cl true p = true) ∧
       (∀ c ∈ parseCommandLine cl, ∀ p ∈ al, ¬ ruleDenies re c false p = true) ∧
       ((parseCommandLine cl ≠ [] ∧
         ∀ c ∈ parseCommandLine cl, lastSetVal re c false al none = some true) ∨
        lastSetVal re cl true al none = some true))) ∧
    (((∃ p ∈ al, ruleDenies re cl true p = true) ∨
      (∃ c ∈ parseCommandLine cl, ∃ p ∈ al, ruleDenies re c false p = true)) →
      ((checkCommand re cl al).approved = false ∧
       ∃ r v, (r, v) ∈ al ∧
         (ruleDenies re cl true (r, v) = true ∨
          ∃ c ∈ parseCommandLine cl, ruleDenies re c false (r, v) = true) ∧
         (checkCommand re cl al).reason = "Command denied: Denied by rule: " ++ r)) := by
  have happ : (checkCommand re cl al).approved =
      (!((checkSingleCommand re cl al true).denied ||
         ((parseCommandLine cl).map (fun c => (c, checkSingleCommand re c al false))).any
           (fun c => c.2.denied)) &&
       ((decide (((parseCommandLine cl).map
             (fun c => (c, checkSingleCommand re c al false))).length > 0) &&
         ((parseCommandLine cl).map (fun c => (c, checkSingleCommand re c al false))).all
           (fun c => c.2.approved)) ||
        (checkSingleCommand re cl al true).approved)) := rfl
  have hBmap : ((parseCommandLine cl).map (fun c => (c, checkSingleCommand re c al false))).any
      (fun c => c.2.denied) =
      (parseCommandLine cl).any (fun c => al.any (ruleDenies re c false)) := by
    rw [myany_map]
    exact myany_congr _ _ _ (fun c _ => checkSingle_denied_eq re c al false)
  have hCall : ((parseCommandLine cl).map (fun c => (c, checkSingleCommand re c al false))).all
      (fun c => c.2.approved) =
      (parseCommandLine cl).all (fun c => (checkSingleCommand re c al false).approved) := by
    rw [myall_map]
  have hlen : ((parseCommandLine cl).map
      (fun c => (c, checkSingleCommand re c al false))).length = (parseCommandLine cl).length :=
    List.length_map _ _
  rw [hBmap, hCall, hlen, checkSingle_denied_eq re cl al true] at happ
  constructor
  · constructor
    · intro h
      rw [happ] at h
      simp only [Bool.and_eq_true, Bool.not_eq_true', Bool.or_eq_false_iff,
        Bool.or_eq_true, decide_eq_true_eq] at h
      obtain ⟨⟨hA, hB⟩, hCD⟩ := h
      have hc1 : ∀ p ∈ al, ¬ ruleDenies re cl true p = true := by
        rw [List.any_eq_false] at hA
        exact hA
      have hc2 : ∀ c ∈ parseCommandLine cl, ∀ p ∈ al, ¬ ruleDenies re c false p = true := by
        rw [List.any_eq_false] at hB
        intro c hc p hp
        have h3 := hB c hc
        simp only [Bool.not_eq_true, List.any_eq_false] at h3
        simp [h3 p hp]
      refine ⟨hc1, hc2, ?_⟩
      have hndsub : ∀ c ∈ parseCommandLine cl, al.any (ruleDenies re c false) = false := by
        intro c hc
        rw [List.any_eq_false]
        exact hc2 c hc
      rcases hCD with hC | hD
      · left
        obtain ⟨hlen0, hall⟩ := hC
        refine ⟨List.ne_nil_of_length_pos (by simpa using hlen0), ?_⟩
        intro c hc
        rw [List.all_eq_true] at hall
        exact (checkSingle_approved_iff re c al false (hndsub c hc)).mp (hall c hc)
      · right
        exact (checkSingle_approved_iff re cl al true (by rw [List.any_eq_false]; exact hc1)).mp hD
    · rintro ⟨hc1, hc2, hc3⟩
      have hA : al.any (ruleDenies re cl true) = false := by
        rw [List.any_eq_false]
        exact hc1
      have hndsub : ∀ c ∈ parseCommandLine cl, al.any (ruleDenies re c false) = false := by
        intro c hc
        rw [List.any_eq_false]
        exact hc2 c hc
      have hB : (parseCommandLine cl).any (fun c => al.any (ruleDenies re c false)) = false := by
        rw [List.any_eq_false]
        intro c hc
        simp only [Bool.not_eq_true]
        exact hndsub c hc
      rw [happ, hA, hB]
      simp only [Bool.or_self, Bool.not_false, Bool.true_and, Bool.or_eq_true,
        Bool.and_eq_true, decide_eq_true_eq]
      rcases hc3 with ⟨hne, hall⟩ | hfull
      · left
        refine ⟨List.length_pos.mpr hne, ?_⟩
        rw [List.all_eq_true]
        intro c hc
        exact (checkSingle_approved_iff re c al false (hndsub c hc)).mpr (hall c hc)
      · right
        exact (checkSingle_approved_iff re cl al true hA).mpr hfull
  · intro hdeny
    have hABraw : ((checkSingleCommand re cl al true).denied ||
        ((parseCommandLine cl).map (fun c => (c, checkSingleCommand re c al false))).any
          (fun c => c.2.denied)) = true := by
      rw [hBmap, checkSingle_denied_eq re cl al true]
      rcases hdeny with ⟨p, hp, hd⟩ | ⟨c, hc, p, hp, hd⟩
      · have : al.any (ruleDenies re cl true) = true := List.any_eq_true.mpr ⟨p, hp, hd⟩
        rw [this, Bool.true_or]
      · have : (parseCommandLine cl).any (fun c => al.any (ruleDenies re c false)) = true :=
          List.any_eq_true.mpr ⟨c, hc, List.any_eq_true.mpr ⟨p, hp, hd⟩⟩
        rw [this, Bool.or_true]
    have hAB : (al.any (ruleDenies re cl true) ||
        (parseCommandLine cl).any (fun c => al.any (ruleDenies re c false))) = true := by
      rw [← hBmap, ← checkSingle_denied_eq re cl al true]
      exact hABraw
    refine ⟨by rw [happ, hAB]; simp, ?_⟩
    by_cases hfd : (checkSingleCommand re cl al true).denied = true
    · obtain ⟨r, v, hmem, hden, hrs⟩ := checkSingle_denied_reason re cl al true hfd
      have hrule : ruleDenies re cl true (r, v) = true := hden
      refine ⟨r, v, hmem, Or.inl hrule, ?_⟩
      have hreq : (checkCommand re cl al).reason =
          "Command denied: " ++ (checkSingleCommand re cl al true).reason := by
        simp only [checkCommand]
        rw [if_pos hABraw, if_pos hfd]
      rw [hreq, hrs, ← String.append_assoc]
      congr 1
    · have hfd2 : (checkSingleCommand re cl al true).denied = false := by
        simpa using hfd
      have hBany : ((parseCommandLine cl).map (fun c => (c, checkSingleCommand re c al false))).any
          (fun c => c.2.denied) = true := by
        rcases Bool.or_eq_true_iff.mp hABraw with h | h
        · exact absurd h hfd
        · exact h
      obtain ⟨y, hfind, hy, hymem⟩ := find_some_of_any hBany
      obtain ⟨c, hcmem, hceq⟩ := List.mem_map.mp hymem
      obtain ⟨r, v, hmem, hden, hrs⟩ := checkSingle_denied_reason re c al false (by
        rw [← hceq] at hy
        exact hy)
      refine ⟨r, v, hmem, Or.inr ⟨c, hcmem, hden⟩, ?_⟩
      have hreq : (checkCommand re cl al).reason =
          "Command denied: " ++ (checkSingleCommand re c al false).reason := by
        simp only [checkCommand]
        rw [if_pos hABraw, if_neg (by simp [hfd2]), hfind, ← hceq]
        rfl
      rw [hreq, hrs, ← String.append_assoc]
      congr 1

/-- Modelled from the claim's words (C4 as stated): approved iff no matching
rule denies any sub-command or the full line, and either every parsed
sub-command is approved by some rule, or the full line is approved by a rule
with `matchCommandLine: true`. -/
def claimApprovedOriginal (re : RegexEngine) (al : Allowlist) (cl : String) : Bool :=
  let subs := parseCommandLine cl
  let deniesCmd := fun (c : String) =>
    al.any (fun p => matchesPattern re c p.1 && (ruleVal p.2 = some false))
  let noDeny := !(deniesCmd cl || subs.any deniesCmd)
  let everySubApproved :=
    subs.all (fun c => al.any (fun p => matchesPattern re c p.1 && (ruleVal p.2 = some true)))
  let fullMCL := al.any (fun p => matchesPattern re cl p.1 &&
    (match p.2 with
     | RuleValue.obj (some true) true => true
     | _ => false))
  noDeny && (everySubApproved || fullMCL)

/-- Counterexample to C4 as stated: allowlist `{ls: true}` and command line
`ls;foo`.  No rule denies anything, the sub-command `foo` is approved by no
rule, and there is no `matchCommandLine: true` rule, so the claim says the
line is rejected; but the code's full-line check also lets the plain boolean
rule `ls` participate, `"ls;foo".startsWith("ls")` matches, and `checkCommand`
approves. -/
theorem checkCommand_claim_counterexample :
    (checkCommand reNone "ls;foo" [("ls", RuleValue.bool true)]).approved = true ∧
    claimApprovedOriginal reNone [("ls", RuleValue.bool true)] "ls;foo" = false := by
  decide

/-- Witness for the amended C4 theorem at a concrete input: allowlist
`{ls: true, rm: false}` and command `ls && rm -rf /` is rejected with the
deny rule named in the reason. -/
theorem checkCommand_approval_spec_witness :
    (checkCommand reNone "ls && rm -rf /" [("ls", RuleValue.bool true), ("rm", RuleValue.bool false)]).approved = false ∧
    ∃ r v, (r, v) ∈ [("ls", RuleValue.bool true), ("rm", RuleValue.bool false)] ∧
      (ruleDenies reNone "ls && rm -rf /" true (r, v) = true ∨
       ∃ c ∈ parseCommandLine "ls && rm -rf /", ruleDenies reNone c false (r, v) = true) ∧
      (checkCommand reNone "ls && rm -rf /" [("ls", RuleValue.bool true), ("rm", RuleValue.bool false)]).reason =
        "Command denied: Denied by rule: " ++ r :=
  (checkCommand_approval_spec reNone [("ls", RuleValue.bool true), ("rm", RuleValue.bool false)]
    "ls && rm -rf /").2 (by decide)

/-! ## Shell tool, phase `initial` (plugins/shell/index.mjs, executeShell) -/

/-- The outcome of the `initial` phase of `executeShell`: run the command
(`this.executeCommand`), return a terminal FAILURE, or emit an
`approval_request` through the bridge and return RUNNING with the
`awaiting_approval` state. -/
inductive ShellOutcome where
  | execute (command : String)
  | failure (error : String)
  | running (phase : String) (command : String)
deriving Repr, DecidableEq

/-- The tool-execution context fields used by `executeShell`. -/
structure ShellContext where
  sessionId : Option String
  toolCallId : Option String
deriving Repr, DecidableEq

/-- A persisted Approval record (the fields `executeShell` reads). -/
structure ApprovalRec where
  toolCallId : Option String
  sessionId : Option String
  status : String
  response : String
deriving Repr, DecidableEq

/-- The true-valued keys of a session allowlist
(`Object.keys(sessionAllowlist).filter(k => sessionAllowlist[k] === true)`,
index.mjs line 305). -/
def allowedKeys (sal : Allowlist) : List String :=
  (sal.filter (fun k => k.2 = RuleValue.bool true)).map Prod.fst

/-- The `initial` phase of `executeShell` (plugins/shell/index.mjs lines
283-356).  Returns the outcome together with a flag recording whether an
`approval_request` was routed through the bridge (which is what pauses the
session).  `ga` is the user-level allowlist that `loadAllowlist()` returns;
`sal` the per-session override; `approvals` the persisted Approval records. -/
def executeShellInitial (re : RegexEngine) (command : String) (ctx : ShellContext)
    (ga : Allowlist) (sal : Option Allowlist) (unattended : Bool)
    (approvals : List ApprovalRec) : ShellOutcome × Bool :=
  let allowlist := sal.getD ga
  let check := checkCommand re command allowlist
  if check.approved || ctx.sessionId.isNone then
    (ShellOutcome.execute command, false)
  else if unattended then
    let errorMsg0 :=
      "Command execution rejected by unattended mode security policy. Reason: " ++
        check.reason ++ "."
    let errorMsg1 :=
      match sal with
      | some s =>
        if (allowedKeys s).length > 0 then
          errorMsg0 ++ " Allowed commands: " ++ ", ".intercalate (allowedKeys s) ++ "."
        else errorMsg0
      | none => errorMsg0
    let errorMsg := errorMsg1 ++ " Enable human approval by setting unattended to false."
    (ShellOutcome.failure errorMsg, false)
  else
    let existing := match ctx.toolCallId with
      | some _ =>
        approvals.find? (fun (a : ApprovalRec) => a.toolCallId == ctx.toolCallId &&
          a.sessionId == ctx.sessionId && (a.status == "approve" || a.status == "modify"))
      | none => none
    match existing with
    | some ex =>
      if ex.status = "modify" then
        (ShellOutcome.failure ("Command rejected. Human guidance: " ++ ex.response), false)
      else
        (ShellOutcome.execute command, false)
    | none =>
      (ShellOutcome.running "awaiting_approval" command, true)

/-- `needle` occurs as a contiguous substring of `hay`. -/
def strContains (hay needle : String) : Prop := ∃ a b, hay = a ++ needle ++ b

/-- C6: in phase `initial` with a session context, when the allowlist check
does not approve and config `unattended=true`, `executeShell` returns FAILURE
with a message containing the check's reason and, when a session allowlist
with true-valued keys exists, the comma-joined list of those keys; no
`approval_request` is routed, so the session is not paused. -/
theorem executeShell_unattended_denial (re : RegexEngine) (command : String)
    (ctx : ShellContext) (ga : Allowlist) (sal : Option Allowlist)
    (approvals : List ApprovalRec) (sid : String)
    (hsid : ctx.sessionId = some sid)
    (hnotapp : (checkCommand re command (sal.getD ga)).approved = false) :
    (executeShellInitial re command ctx ga sal true approvals).2 = false ∧
    ∃ msg, (executeShellInitial re command ctx ga sal true approvals).1 =
        ShellOutcome.failure msg ∧
      strContains msg (checkCommand re command (sal.getD ga)).reason ∧
      (∀ s, sal = some s → allowedKeys s ≠ [] →
        strContains msg (", ".intercalate (allowedKeys s))) := by
  cases sal with
  | none =>
    have hna : (checkCommand re command ga).approved = false := by simpa using hnotapp
    have hres : executeShellInitial re command ctx ga none true approvals =
        (ShellOutcome.failure
          ("Command execution rejected by unattended mode security policy. Reason: " ++
            (checkCommand re command ga).reason ++ "." ++
            " Enable human approval by setting unattended to false."), false) := by
      simp [executeShellInitial, hna, hsid]
    refine ⟨by rw [hres], _, by rw [hres], ?_, ?_⟩
    · exact ⟨"Command execution rejected by unattended mode security policy. Reason: ",
        "." ++ " Enable human approval by setting unattended to false.",
        by simp [String.append_assoc]⟩
    · intro s hs
      simp at hs
  | some s =>
    have hna : (checkCommand re command s).approved = false := by simpa using hnotapp
    by_cases hk : (allowedKeys s).length > 0
    · have hres : executeShellInitial re command ctx ga (some s) true approvals =
          (ShellOutcome.failure
            ("Command execution rejected by unattended mode security policy. Reason: " ++
              (checkCommand re command s).reason ++ "." ++
              " Allowed commands: " ++ ", ".intercalate (allowedKeys s) ++ "." ++
              " Enable human approval by setting unattended to false."), false) := by
        simp [executeShellInitial, hna, hsid, hk]
      refine ⟨by rw [hres], _, by rw [hres], ?_, ?_⟩
      · exact ⟨"Command execution rejected by unattended mode security policy. Reason: ",
          "." ++ " Allowed commands: " ++ ", ".intercalate (allowedKeys s) ++ "." ++
            " Enable human approval by setting unattended to false.",
          by simp [String.append_assoc]⟩
      · intro s2 hs2 _
        injection hs2 with hs2
        subst hs2
        exact ⟨"Command execution rejected by unattended mode security policy. Reason: " ++
            (checkCommand re command s).reason ++ "." ++ " Allowed commands: ",
          "." ++ " Enable human approval by setting unattended to false.",
          by simp [String.append_assoc]⟩
    · have hres : executeShellInitial re command ctx ga (some s) true approvals =
          (ShellOutcome.failure
            ("Command execution rejected by unattended mode security policy. Reason: " ++
              (checkCommand re command s).reason ++ "." ++
              " Enable human approval by setting unattended to false."), false) := by
        simp [executeShellInitial, hna, hsid, hk]
      refine ⟨by rw [hres], _, by rw [hres], ?_, ?_⟩
      · exact ⟨"Command execution rejected by unattended mode security policy. Reason: ",
          "." ++ " Enable human approval by setting unattended to false.",
          by simp [String.append_assoc]⟩
      · intro s2 hs2 hne
        injection hs2 with hs2
        subst hs2
        have hz : (allowedKeys s).length = 0 := Nat.eq_zero_of_not_pos hk
        exact absurd (List.eq_nil_of_length_eq_zero hz) hne

/-- Witness for C6: unattended deny of `rm -rf /` under a session allowlist
`{rm: false, ls: true}` with session context present. -/
theorem executeShell_unattended_denial_witness :
    (executeShellInitial reNone "rm -rf /" ⟨some "1", some "T"⟩ []
      (some [("rm", RuleValue.bool false), ("ls", RuleValue.bool true)]) true []).2 = false ∧
    ∃ msg, (executeShellInitial reNone "rm -rf /" ⟨some "1", some "T"⟩ []
        (some [("rm", RuleValue.bool false), ("ls", RuleValue.bool true)]) true []).1 =
        ShellOutcome.failure msg ∧
      strContains msg (checkCommand reNone "rm -rf /"
        ((some [("rm", RuleValue.bool false), ("ls", RuleValue.bool true)]).getD [])).reason ∧
      (∀ s, (some [("rm", RuleValue.bool false), ("ls", RuleValue.bool true)]) = some s →
        allowedKeys s ≠ [] → strContains msg (", ".intercalate (allowedKeys s))) :=
  executeShell_unattended_denial reNone "rm -rf /" ⟨some "1", some "T"⟩ []
    (some [("rm", RuleValue.bool false), ("ls", RuleValue.bool true)]) [] "1" rfl (by decide)

/-! ## Tool-call state (host-container-bridge.mjs, handleToolCall /
executeToolLocally)

Arbitrary JavaScript values carried in tool results and `ToolCallState`
entries. -/

/-- A JavaScript value, as far as the bridge inspects one. -/
inductive JsValue where
  | null
  | undefined
  | bool (b : Bool)
  | num (n : Int)
  | str (s : String)
  | obj (fields : List (String × JsValue))
  | arr (elems : List JsValue)

/-- JavaScript truthiness. -/
def jsTruthy : JsValue → Bool
  | JsValue.null => false
  | JsValue.undefined => false
  | JsValue.bool b => b
  | JsValue.num n => n ≠ 0
  | JsValue.str s => s ≠ ""
  | JsValue.obj _ => true
  | JsValue.arr _ => true

/-- Property access `v?.name`: `undefined` on non-objects and missing
fields. -/
def jsGet (v : JsValue) (name : String) : JsValue :=
  match v with
  | JsValue.obj fields => (assocFind fields name).getD JsValue.undefined
  | _ => JsValue.undefined

/-- One `ToolCallState` entry (bridge lines 242-248). -/
structure ToolCallEntry where
  status : String
  state : JsValue
  ctxSessionId : String
  ctxToolCallId : String
  externalData : JsValue := JsValue.undefined

/-- The process-wide `globals.toolCallStates` map. -/
abbrev ToolCallStates := List (String × ToolCallEntry)

/-- The context handed to the locally executed tool handler. -/
structure ToolContext where
  sessionId : String
  toolCallId : String
  state : JsValue
  externalData : JsValue

/-- A tool handler as the bridge sees it: arguments and context to a result
value (exceptions are out of scope of C5; `executeToolLocally` would delete
the entry and fail). -/
abbrev ToolHandler := JsValue → ToolContext → JsValue

/-- The get-or-create step of `handleToolCall` (bridge lines 241-249). -/
def ensureEntry (states : ToolCallStates) (sessionId toolCallId : String) : ToolCallStates :=
  match assocFind states toolCallId with
  | some _ => states
  | none =>
    assocSet states toolCallId
      { status := "idle", state := JsValue.obj [], ctxSessionId := sessionId,
        ctxToolCallId := toolCallId }

/-- The context built for the local execution (bridge lines 264-270): the
stored entry's `state` and `externalData`. -/
def handleToolCallCtx (states : ToolCallStates) (sessionId toolCallId : String) :
    ToolContext :=
  let entry := ((assocFind (ensureEntry states sessionId toolCallId) toolCallId).getD
    { status := "idle", state := JsValue.obj [], ctxSessionId := sessionId,
      ctxToolCallId := toolCallId })
  { sessionId := sessionId, toolCallId := toolCallId, state := entry.state,
    externalData := entry.externalData }

/-- `executeToolLocally` (bridge lines 277-315), local-execution path: run the
handler; on `status: "running"` keep the entry, overwriting its `state` with
`result.state` only when that is truthy (`result.state || entry.state`) and
marking it RUNNING; on any other status delete the entry. -/
def executeToolLocally (h : ToolHandler) (args : JsValue) (ctx : ToolContext)
    (states : ToolCallStates) : JsValue × ToolCallStates :=
  let result := h args ctx
  let isRunning :=
    match jsGet result "status" with
    | JsValue.str s => s == "running"
    | _ => false
  if isRunning then
    let states2 :=
      match assocFind states ctx.toolCallId with
      | some entry =>
        assocSet states ctx.toolCallId
          { entry with
            state := if jsTruthy (jsGet result "state") then jsGet result "state" else entry.state,
            status := "running" }
      | none => states
    (result, states2)
  else
    (result, assocDel states ctx.toolCallId)

/-- `handleToolCall` (bridge lines 237-272), local-execution path (host, or a
tool without `requiresHostExecution`): get-or-create the entry, then execute
locally with the stored state and externalData in the context. -/
def handleToolCall (h : ToolHandler) (args : JsValue) (sessionId toolCallId : String)
    (states : ToolCallStates) : JsValue × ToolCallStates :=
  let states1 := ensureEntry states sessionId toolCallId
  executeToolLocally h args (handleToolCallCtx states sessionId toolCallId) states1

/-- `handleApprovalResponse` in the child (bridge lines 429-441): set
`externalData` on the stored entry, leaving everything else unchanged (a
missing entry is left alone). -/
def injectExternalData (states : ToolCallStates) (toolCallId : String) (ed : JsValue) :
    ToolCallStates :=
  match assocFind states toolCallId with
  | some entry => assocSet states toolCallId { entry with externalData := ed }
  | none => states

theorem ensureEntry_some (states : ToolCallStates) (sid tid : String) :
    ∃ e, assocFind (ensureEntry states sid tid) tid = some e := by
  unfold ensureEntry
  cases hf : assocFind states tid with
  | some e => exact ⟨e, by simp [hf]⟩
  | none =>
    exact ⟨⟨"idle", JsValue.obj [], sid, tid, JsValue.undefined⟩,
      by simp [hf, assocFind_assocSet_self]⟩

theorem handleToolCallCtx_toolCallId (states : ToolCallStates) (sid tid : String) :
    (handleToolCallCtx states sid tid).toolCallId = tid := rfl

theorem handleToolCallCtx_of_find {states : ToolCallStates} {sid tid : String}
    {e : ToolCallEntry} (h : assocFind states tid = some e) :
    handleToolCallCtx states sid tid =
      { sessionId := sid, toolCallId := tid, state := e.state,
        externalData := e.externalData } := by
  unfold handleToolCallCtx ensureEntry
  simp [h]

theorem injectExternalData_find {states : ToolCallStates} {tid : String} {ED : JsValue}
    {e : ToolCallEntry} (h : assocFind states tid = some e) :
    assocFind (injectExternalData states tid ED) tid =
      some { e with externalData := ED } := by
  unfold injectExternalData
  simp [h, assocFind_assocSet_self]

/-- C5 (amended): a tool invocation returning `{status: RUNNING, state: S}`
with S truthy retains the ToolCallState entry with state S (a falsy S keeps
the previously stored state instead), and the next invocation of the same
toolCallId receives exactly the retained state plus any externalData injected
in the meantime; an invocation returning SUCCESS or FAILURE removes the
entry. -/
theorem toolCallState_spec (h : ToolHandler) (args : JsValue) (sid tid : String)
    (states : ToolCallStates) (S ED : JsValue) :
    ((jsGet (h args (handleToolCallCtx states sid tid)) "status" = JsValue.str "running" →
      jsGet (h args (handleToolCallCtx states sid tid)) "state" = S →
      jsTruthy S = true →
      ∃ e, assocFind (handleToolCall h args sid tid states).2 tid = some e ∧
        e.state = S ∧ e.status = "running" ∧
        handleToolCallCtx
            (injectExternalData (handleToolCall h args sid tid states).2 tid ED) sid tid =
          { sessionId := sid, toolCallId := tid, state := S, externalData := ED })) ∧
    ((jsGet (h args (handleToolCallCtx states sid tid)) "status" = JsValue.str "success" ∨
      jsGet (h args (handleToolCallCtx states sid tid)) "status" = JsValue.str "failure") →
      assocFind (handleToolCall h args sid tid states).2 tid = none) := by
  obtain ⟨e0, he0⟩ := ensureEntry_some states sid tid
  constructor
  · intro hrun hstate htruthy
    have hstates2 : (handleToolCall h args sid tid states).2 =
        assocSet (ensureEntry states sid tid) tid
          { e0 with state := S, status := "running" } := by
      show (executeToolLocally h args (handleToolCallCtx states sid tid)
        (ensureEntry states sid tid)).2 = _
      unfold executeToolLocally
      simp only [hrun]
      rw [if_pos (by rfl)]
      rw [handleToolCallCtx_toolCallId, he0, hstate, htruthy]
      simp
    refine ⟨{ e0 with state := S, status := "running" }, ?_, rfl, rfl, ?_⟩
    · rw [hstates2]
      exact assocFind_assocSet_self _ _ _
    · have hfind2 : assocFind (handleToolCall h args sid tid states).2 tid =
          some { e0 with state := S, status := "running" } := by
        rw [hstates2]
        exact assocFind_assocSet_self _ _ _
      rw [handleToolCallCtx_of_find (injectExternalData_find hfind2)]
  · intro hstatus
    have hnotrun : (match jsGet (h args (handleToolCallCtx states sid tid)) "status" with
        | JsValue.str s => s == "running"
        | _ => false) = false := by
      rcases hstatus with hs | hs <;> rw [hs] <;> rfl
    have hstates2 : (handleToolCall h args sid tid states).2 =
        assocDel (ensureEntry states sid tid) (handleToolCallCtx states sid tid).toolCallId := by
      show (executeToolLocally h args (handleToolCallCtx states sid tid)
        (ensureEntry states sid tid)).2 = _
      unfold executeToolLocally
      rw [if_neg (by rw [hnotrun]; simp)]
    rw [hstates2, handleToolCallCtx_toolCallId]
    exact assocFind_assocDel_self _ _

/-- A tool handler that answers RUNNING with `state: null` (a falsy state). -/
def nullStateHandler : ToolHandler := fun _ _ =>
  JsValue.obj [("status", JsValue.str "running"), ("state", JsValue.null)]

/-- The shell tool's RUNNING answer: `{status: running,
state: {phase: awaiting_approval}}`. -/
def awaitingHandler : ToolHandler := fun _ _ =>
  JsValue.obj [("status", JsValue.str "running"),
    ("state", JsValue.obj [("phase", JsValue.str "awaiting_approval")])]

/-- A tool handler that answers SUCCESS. -/
def successHandler : ToolHandler := fun _ _ =>
  JsValue.obj [("status", JsValue.str "success"), ("result", JsValue.str "ok")]

/-- Counterexample to C5 as stated: a tool invocation that returns
`{status: RUNNING, state: null}` does not retain the entry with state `null`;
`executeToolLocally` keeps the previously stored state (here the fresh
entry's `{}`) because of `result.state || toolCallEntry.state`. -/
theorem toolCallState_claim_counterexample :
    ∃ e, assocFind (handleToolCall nullStateHandler (JsValue.obj []) "1" "T" []).2 "T" =
        some e ∧ e.state = JsValue.obj [] ∧ ¬ e.state = JsValue.null := by
  refine ⟨⟨"running", JsValue.obj [], "1", "T", JsValue.undefined⟩, rfl, rfl, ?_⟩
  intro hc
  exact JsValue.noConfusion hc

/-- Witness for the amended C5 theorem: the shell tool's
`awaiting_approval` RUNNING state is retained and handed back with the
injected approval, and a SUCCESS result removes the entry. -/
theorem toolCallState_spec_witness :
    (∃ e, assocFind (handleToolCall awaitingHandler (JsValue.obj []) "1" "T" []).2 "T" =
        some e ∧
      e.state = JsValue.obj [("phase", JsValue.str "awaiting_approval")] ∧
      e.status = "running" ∧
      handleToolCallCtx
          (injectExternalData (handleToolCall awaitingHandler (JsValue.obj []) "1" "T" []).2
            "T" (JsValue.obj [("approvalReceived", JsValue.bool true)])) "1" "T" =
        { sessionId := "1", toolCallId := "T",
          state := JsValue.obj [("phase", JsValue.str "awaiting_approval")],
          externalData := JsValue.obj [("approvalReceived", JsValue.bool true)] }) ∧
    assocFind (handleToolCall successHandler (JsValue.obj []) "1" "T" []).2 "T" = none :=
  ⟨(toolCallState_spec awaitingHandler (JsValue.obj []) "1" "T" []
      (JsValue.obj [("phase", JsValue.str "awaiting_approval")])
      (JsValue.obj [("approvalReceived", JsValue.bool true)])).1 rfl rfl rfl,
   (toolCallState_spec successHandler (JsValue.obj []) "1" "T" []
      JsValue.null JsValue.null).2 (Or.inl rfl)⟩

/-! ## Command resolution (host-container-bridge.mjs, resolveCommand)

Resolution starts from the parsed argv (first token and remaining tokens);
`Utils.parseDSL` itself is out of scope of the claim. -/

/-- Arguments attached to a resolved command: positional tokens from the DSL
parse or the `__` fallback, or the named-argument object an alias built. -/
inductive CmdArgs where
  | positional (args : List String)
  | named (args : List (String × String))
deriving Repr, DecidableEq

/-- One registered tool as the resolver sees it: canonical name and optional
alias resolver over the argv tokens (`none` result models a falsy return). -/
structure ToolDecl where
  name : String
  aliasFn : Option (List String → Option (String × CmdArgs))

/-- The plugin registry: plugins in registration order, each with its tool
definitions in order. -/
abbrev Catalog := List (List ToolDecl)

/-- The inner alias loop over one plugin's tools (bridge lines 959-972):
first truthy alias result wins. -/
def scanTools (tools : List ToolDecl) (allParts : List String) :
    Option (String × CmdArgs) :=
  match tools with
  | [] => none
  | t :: ts =>
    match t.aliasFn with
    | some f =>
      match f allParts with
      | some r => some r
      | none => scanTools ts allParts
    | none => scanTools ts allParts

/-- The outer alias loop over plugins (bridge lines 955-977): after each
plugin without a match, the scan stops early when the original first token is
already a registered name. -/
def aliasScan (catalog : Catalog) (registry : List String) (cmd0 : String)
    (allParts : List String) : Option (String × CmdArgs) :=
  match catalog with
  | [] => none
  | plugin :: rest =>
    match scanTools plugin allParts with
    | some r => some r
    | none =>
      if registry.contains cmd0 then none
      else aliasScan rest registry cmd0 allParts

/-- The `__` fallback loop (bridge lines 987-999): glue argv tokens one at a
time onto the command and stop at the first name the registry contains. -/
def glueSearch (registry : List String) (cur : String) (rest : List String) :
    Option (String × List String) :=
  match rest with
  | [] => none
  | x :: xs =>
    let cur2 := cur ++ "__" ++ x
    if registry.contains cur2 then some (cur2, xs) else glueSearch registry cur2 xs

/-- Result of `resolveCommand` (bridge lines 1009-1015); `handler` presence is
registry membership of the final name. -/
structure Resolved where
  cmd : String
  args : CmdArgs
  found : Bool
  error : Option String
deriving Repr, DecidableEq

/-- Whether the fallback applies to these arguments
(`Array.isArray(args) && args.length > 0`, bridge line 981). -/
def isPositionalNonempty : CmdArgs → Bool
  | CmdArgs.positional l => decide (l.length > 0)
  | CmdArgs.named _ => false

/-- `resolveCommand` (bridge lines 939-1016) from the parsed argv: alias
scan, then the `__` fallback when the current name is not registered and the
arguments are a non-empty positional list. -/
def resolveCommand (catalog : Catalog) (registry : List String) (cmd0 : String)
    (args0 : List String) : Resolved :=
  let scan := aliasScan catalog registry cmd0 (cmd0 :: args0)
  let step1 :=
    match scan with
    | some (n, a) => (n, a)
    | none => (cmd0, CmdArgs.positional args0)
  let step2 :=
    if !registry.contains step1.1 && isPositionalNonempty step1.2 then
      match step1.2 with
      | CmdArgs.positional l =>
        match glueSearch registry step1.1 l with
        | some (c, rest) => (c, CmdArgs.positional rest)
        | none => step1
      | CmdArgs.named _ => step1
    else step1
  { cmd := step2.1, args := step2.2, found := registry.contains step2.1,
    error :=
      if registry.contains step2.1 then none
      else some ("Command not found: " ++ step2.1) }

/-- The canonical `__`-joined name of a non-empty token list. -/
def glueOf (tokens : List String) : String :=
  match tokens with
  | [] => ""
  | t :: ts => ts.foldl (fun acc x => acc ++ "__" ++ x) t

/-- All candidate resolutions by gluing two or more leading argv tokens, in
increasing length: names with their leftover positional args. -/
def glueCandidates (cmd0 : String) (args0 : List String) : List (String × List String) :=
  (List.range args0.length).map
    (fun k => (glueOf (cmd0 :: args0.take (k + 1)), args0.drop (k + 1)))

/-- Modelled from the claim's words: the shortest `__`-concatenation of
leading argv tokens (at least two) that exists in the registry, with the
remaining tokens as positional args. -/
def specGlueResolve (registry : List String) (cmd0 : String) (args0 : List String) :
    Option (String × List String) :=
  (glueCandidates cmd0 args0).find? (fun p => registry.contains p.1)

theorem glueOf_cons_cons (c x : String) (l : List String) :
    glueOf (c :: x :: l) = glueOf ((c ++ "__" ++ x) :: l) := by
  simp [glueOf, List.foldl_cons]

theorem glueCandidates_cons (cmd0 x : String) (xs : List String) :
    glueCandidates cmd0 (x :: xs) =
      (cmd0 ++ "__" ++ x, xs) :: glueCandidates (cmd0 ++ "__" ++ x) xs := by
  unfold glueCandidates
  rw [List.length_cons, List.range_succ_eq_map, List.map_cons, List.map_map]
  apply congrArg₂ List.cons
  · simp [glueOf]
  · apply List.map_congr_left
    intro k _
    simp only [Function.comp_apply, List.take_succ_cons, List.drop_succ_cons]
    rw [glueOf_cons_cons]

theorem glueSearch_eq_spec (registry : List String) (cmd0 : String) (args0 : List String) :
    glueSearch registry cmd0 args0 = specGlueResolve registry cmd0 args0 := by
  induction args0 generalizing cmd0 with
  | nil => rfl
  | cons x xs ih =>
    rw [specGlueResolve, glueCandidates_cons]
    simp only [glueSearch]
    by_cases hc : registry.contains (cmd0 ++ "__" ++ x) = true
    · rw [if_pos hc]
      exact (List.find?_cons_of_pos (glueCandidates (cmd0 ++ "__" ++ x) xs)
        (p := fun q => registry.contains q.1) (a := (cmd0 ++ "__" ++ x, xs)) hc).symm
    · rw [if_neg hc]
      rw [List.find?_cons_of_neg (glueCandidates (cmd0 ++ "__" ++ x) xs)
        (p := fun q => registry.contains q.1) (a := (cmd0 ++ "__" ++ x, xs)) hc]
      rw [ih (cmd0 ++ "__" ++ x)]
      rfl

theorem scanTools_append (a b : List ToolDecl) (allParts : List String) :
    scanTools (a ++ b) allParts =
      (match scanTools a allParts with
       | some r => some r
       | none => scanTools b allParts) := by
  induction a with
  | nil => simp [scanTools]
  | cons t ts ih =>
    cases hfn : t.aliasFn with
    | none => simp [scanTools, hfn, ih]
    | some f =>
      cases hr : f allParts with
      | none => simp [scanTools, hfn, hr, ih]
      | some r => simp [scanTools, hfn, hr]

theorem aliasScan_flatten (catalog : Catalog) (registry : List String) (cmd0 : String)
    (allParts : List String) (h : registry.contains cmd0 = false) :
    aliasScan catalog registry cmd0 allParts = scanTools catalog.flatten allParts := by
  induction catalog with
  | nil => rfl
  | cons plugin rest ih =>
    rw [List.flatten_cons, scanTools_append]
    cases hscan : scanTools plugin allParts with
    | some r => simp [aliasScan, hscan]
    | none =>
      have h2 : cmd0 ∉ registry := by simpa using h
      simp [aliasScan, hscan, h2, ih]

/-- C7 (amended): when the first argv token is not a registered name,
resolution picks the first truthy alias match in tool-registration order
(plugin order, then definition order), taking that alias's name and args
whenever the fallback does not rewrite them (the alias name is registered, or
the alias args are not a non-empty positional list); with no alias match it
resolves to the shortest `__`-concatenation of two or more leading argv
tokens that exists in the registry — the first hit scanning short to long —
with the remaining tokens as positional args, and leaves the argv unchanged
when no concatenation is registered. -/
theorem resolveCommand_spec (catalog : Catalog) (registry : List String)
    (cmd0 : String) (args0 : List String)
    (h0 : registry.contains cmd0 = false) :
    (∀ n a, scanTools catalog.flatten (cmd0 :: args0) = some (n, a) →
      (registry.contains n = true ∨ isPositionalNonempty a = false) →
      (resolveCommand catalog registry cmd0 args0).cmd = n ∧
      (resolveCommand catalog registry cmd0 args0).args = a) ∧
    (scanTools catalog.flatten (cmd0 :: args0) = none →
      ((resolveCommand catalog registry cmd0 args0).cmd,
        (resolveCommand catalog registry cmd0 args0).args) =
        (match specGlueResolve registry cmd0 args0 with
         | some (c, rest) => (c, CmdArgs.positional rest)
         | none => (cmd0, CmdArgs.positional args0))) := by
  have hscan := aliasScan_flatten catalog registry cmd0 (cmd0 :: args0) h0
  constructor
  · intro n a hfa hcond
    have halias : aliasScan catalog registry cmd0 (cmd0 :: args0) = some (n, a) := by
      rw [hscan, hfa]
    rcases hcond with hreg | hpos
    · have hmem : n ∈ registry := by simpa using hreg
      constructor <;> simp [resolveCommand, halias, hmem]
    · constructor <;> simp [resolveCommand, halias, hpos]
  · intro hfa
    have halias : aliasScan catalog registry cmd0 (cmd0 :: args0) = none := by
      rw [hscan, hfa]
    cases args0 with
    | nil =>
      simp [resolveCommand, halias, isPositionalNonempty, specGlueResolve, glueCandidates]
    | cons x xs =>
      have hpos : isPositionalNonempty (CmdArgs.positional (x :: xs)) = true := by
        simp [isPositionalNonempty]
      rw [← glueSearch_eq_spec]
      have h02 : cmd0 ∉ registry := by simpa using h0
      cases hg : glueSearch registry cmd0 (x :: xs) with
      | some p =>
        obtain ⟨c, rest⟩ := p
        simp [resolveCommand, halias, h02, hpos, hg]
      | none =>
        simp [resolveCommand, halias, h02, hpos, hg]

/-- Counterexample to C7 as stated: with both `shell__exec` and
`shell__exec__foo` registered and argv `shell exec foo x`, resolution stops at
the first (shortest) hit `shell__exec` with args `[foo, x]`, not at the
longest existing concatenation `shell__exec__foo`. -/
theorem resolveCommand_longest_counterexample :
    (resolveCommand [] ["shell__exec", "shell__exec__foo"] "shell" ["exec", "foo", "x"]).cmd =
      "shell__exec" ∧
    (resolveCommand [] ["shell__exec", "shell__exec__foo"] "shell" ["exec", "foo", "x"]).args =
      CmdArgs.positional ["foo", "x"] ∧
    ¬ ((resolveCommand [] ["shell__exec", "shell__exec__foo"] "shell"
          ["exec", "foo", "x"]).cmd = "shell__exec__foo" ∧
       (resolveCommand [] ["shell__exec", "shell__exec__foo"] "shell"
          ["exec", "foo", "x"]).args = CmdArgs.positional ["x"]) := by
  decide

/-- A concrete alias declaration in the shape the shell plugin registers. -/
def shellExecTool : ToolDecl :=
  { name := "shell__execute",
    aliasFn := some (fun args =>
      match args with
      | "shell" :: "exec" :: rest =>
        some ("shell__execute", CmdArgs.named [("command", " ".intercalate rest)])
      | _ => none) }

/-- Witness for the amended C7 theorem: the alias resolves
`shell exec cat /etc/hostname`, and with no alias the fallback resolves
`shell exec foo` to the first registered glue `shell__exec`. -/
theorem resolveCommand_spec_witness :
    ((resolveCommand [[shellExecTool]] ["shell__execute"] "shell"
        ["exec", "cat", "/etc/hostname"]).cmd = "shell__execute" ∧
     (resolveCommand [[shellExecTool]] ["shell__execute"] "shell"
        ["exec", "cat", "/etc/hostname"]).args =
       CmdArgs.named [("command", "cat /etc/hostname")]) ∧
    ((resolveCommand [] ["shell__exec"] "shell" ["exec", "foo"]).cmd,
      (resolveCommand [] ["shell__exec"] "shell" ["exec", "foo"]).args) =
      ("shell__exec", CmdArgs.positional ["foo"]) :=
  ⟨(resolveCommand_spec [[shellExecTool]] ["shell__execute"] "shell"
      ["exec", "cat", "/etc/hostname"] (by decide)).1
      "shell__execute" (CmdArgs.named [("command", "cat /etc/hostname")]) rfl
      (Or.inl (by decide)),
   by
    have h := (resolveCommand_spec [] ["shell__exec"] "shell" ["exec", "foo"] (by decide)).2 rfl
    exact h.trans (by decide)⟩

/-! ## Forwarded-command response (host-container-bridge.mjs, handleCommand,
`fromHost` branch, lines 697-797) -/

/-- The `command_response` fields computed by the child (bridge lines
737-766): `success` and `result` from the handler's return value and the
captured log output, `error` passed through. -/
structure CommandResponse where
  success : Bool
  result : JsValue
  error : JsValue

/-- The success-determination logic of the `fromHost` branch (bridge lines
742-766): explicit `success`/`failure`-or-`error` statuses are honoured; any
other return defaults to failure with the captured output or the fixed
fallback text. -/
def commandResponseFromHost (result : JsValue) (output : String) : CommandResponse :=
  let status := jsGet result "status"
  let isSuccess :=
    match status with
    | JsValue.str s => s == "success"
    | _ => false
  let isFailure :=
    match status with
    | JsValue.str s => s == "failure" || s == "error"
    | _ => false
  if isSuccess then
    { success := true,
      result := if jsTruthy (jsGet result "result") then jsGet result "result"
        else JsValue.str output,
      error := jsGet result "error" }
  else if isFailure then
    { success := false,
      result := if jsTruthy (jsGet result "result") then jsGet result "result"
        else if jsTruthy (jsGet result "error") then jsGet result "error"
        else JsValue.str output,
      error := jsGet result "error" }
  else
    { success := false,
      result := if output ≠ "" then JsValue.str output
        else JsValue.str "Tool execution failed: No status returned",
      error := jsGet result "error" }

/-- C10: when a handler invoked for a host-forwarded command returns a value
whose `status` is neither `success` nor `failure`/`error` — for example a
plain value or `undefined` — the child's `command_response` has
`success = false`, with the captured log output as its content or, when there
is no output, the text `Tool execution failed: No status returned`. -/
theorem handleCommand_noStatus_fallback (result : JsValue) (output : String)
    (hs : ∀ s, jsGet result "status" = JsValue.str s →
      s ≠ "success" ∧ s ≠ "failure" ∧ s ≠ "error") :
    (commandResponseFromHost result output).success = false ∧
    (output ≠ "" → (commandResponseFromHost result output).result = JsValue.str output) ∧
    (output = "" → (commandResponseFromHost result output).result =
      JsValue.str "Tool execution failed: No status returned") := by
  have hsucc : (match jsGet result "status" with
      | JsValue.str s => s == "success"
      | _ => false) = false := by
    cases hstat : jsGet result "status" with
    | str s =>
      obtain ⟨h1, _, _⟩ := hs s hstat
      simp [h1]
    | null => rfl
    | undefined => rfl
    | bool b => rfl
    | num n => rfl
    | obj fields => rfl
    | arr elems => rfl
  have hfail : (match jsGet result "status" with
      | JsValue.str s => s == "failure" || s == "error"
      | _ => false) = false := by
    cases hstat : jsGet result "status" with
    | str s =>
      obtain ⟨_, h2, h3⟩ := hs s hstat
      simp [h2, h3]
    | null => rfl
    | undefined => rfl
    | bool b => rfl
    | num n => rfl
    | obj fields => rfl
    | arr elems => rfl
  refine ⟨?_, ?_, ?_⟩
  · simp [commandResponseFromHost, hsucc, hfail]
  · intro hne
    simp [commandResponseFromHost, hsucc, hfail, hne]
  · intro heq
    simp [commandResponseFromHost, hsucc, hfail, heq]

/-- Witness for C10: a handler returning the plain string `"done"` (no
status) yields `success=false` with the captured output when present, and the
fallback text when the log buffer is empty. -/
theorem handleCommand_noStatus_fallback_witness :
    ((commandResponseFromHost (JsValue.str "done") "log line").success = false ∧
      (commandResponseFromHost (JsValue.str "done") "log line").result =
        JsValue.str "log line") ∧
    (commandResponseFromHost (JsValue.str "done") "").result =
      JsValue.str "Tool execution failed: No status returned" :=
  ⟨⟨(handleCommand_noStatus_fallback (JsValue.str "done") "log line"
      (fun s h => JsValue.noConfusion h)).1,
    (handleCommand_noStatus_fallback (JsValue.str "done") "log line"
      (fun s h => JsValue.noConfusion h)).2.1 (by decide)⟩,
    (handleCommand_noStatus_fallback (JsValue.str "done") ""
      (fun s h => JsValue.noConfusion h)).2.2 rfl⟩

/-! ## Durable collection store (common/yaml-db.mjs, YamlCollection)

The filesystem is abstracted as the list of ids whose record file exists in
the collection's directory; `save` additionally reports the file operations
it performs (none means no mtime changes). -/

/-- `Set.add` (insertion-ordered, no duplicates). -/
def setAdd (l : List String) (k : String) : List String :=
  if l.contains k then l else l ++ [k]

/-- `Set.delete`. -/
def setDel (l : List String) (k : String) : List String :=
  l.filter (fun x => x ≠ k)

/-- The `YamlCollection` fields the claims touch.  `items` holds the parsed
records (arbitrary JS values), `filePaths` the ids with a cached file path,
`dirty` and `deleted` the pending sets. -/
structure YamlCollection where
  items : List (String × JsValue)
  filePaths : List String
  dirty : List String
  deleted : List String
  hasChanges : Bool

/-- `set(id, data)` (yaml-db.mjs lines 160-165). -/
def YamlCollection.set (c : YamlCollection) (id : String) (data : JsValue) : YamlCollection :=
  { c with
    items := assocSet c.items id data,
    dirty := setAdd c.dirty id,
    deleted := setDel c.deleted id,
    hasChanges := true }

/-- `delete(id)` (yaml-db.mjs lines 167-176): only an id present in `items`
or `filePaths` is tombstoned; the return value says whether anything
happened. -/
def YamlCollection.delete (c : YamlCollection) (id : String) : Bool × YamlCollection :=
  if (assocFind c.items id).isSome || c.filePaths.contains id then
    (true,
     { c with
       items := assocDel c.items id,
       deleted := setAdd c.deleted id,
       dirty := setDel c.dirty id,
       hasChanges := true })
  else
    (false, c)

/-- A file operation performed by `save`. -/
inductive FSOp where
  | unlink (id : String)
  | write (id : String)
deriving Repr, DecidableEq

/-- `save()` (yaml-db.mjs lines 192-212): nothing at all when `hasChanges` is
unset; else unlink each tombstoned id whose file exists and drop its cached
path, then serialize each dirty id with truthy data, and clear both sets.
Returns the new collection, the new set of existing files, and the performed
file operations in order. -/
def YamlCollection.save (c : YamlCollection) (fsFiles : List String) :
    YamlCollection × List String × List FSOp :=
  if c.hasChanges = false then
    (c, fsFiles, [])
  else
    let delOps := (c.deleted.filter (fun id => fsFiles.contains id)).map FSOp.unlink
    let fs1 := fsFiles.filter (fun id => !c.deleted.contains id)
    let filePaths1 := c.filePaths.filter (fun id => !c.deleted.contains id)
    let writeIds := c.dirty.filter
      (fun id => jsTruthy ((assocFind c.items id).getD JsValue.undefined))
    let writeOps := writeIds.map FSOp.write
    let fs2 := fs1 ++ writeIds.filter (fun id => !fs1.contains id)
    let filePaths2 := writeIds.foldl setAdd filePaths1
    ({ items := c.items, filePaths := filePaths2, dirty := [], deleted := [],
       hasChanges := false },
     fs2, delOps ++ writeOps)

theorem save_hasChanges_false (c : YamlCollection) (fs : List String) :
    (c.save fs).1.hasChanges = false := by
  unfold YamlCollection.save
  by_cases hch : c.hasChanges = false
  · rw [if_pos hch]
    exact hch
  · rw [if_neg hch]

theorem save_noop (c : YamlCollection) (fs : List String) (h : c.hasChanges = false) :
    c.save fs = (c, fs, []) := by
  unfold YamlCollection.save
  rw [if_pos h]

/-- C9: `save` is idempotent with respect to the filesystem: a second `save`
with no intervening `set` or `delete` performs no file writes and no file
deletions (so no file's mtime changes), and leaves the collection and the
directory contents untouched. -/
theorem save_idempotent (c : YamlCollection) (fs : List String) :
    ((c.save fs).1.save (c.save fs).2.1).2.2 = [] ∧
    ((c.save fs).1.save (c.save fs).2.1).1 = (c.save fs).1 ∧
    ((c.save fs).1.save (c.save fs).2.1).2.1 = (c.save fs).2.1 := by
  have h2 := save_noop (c.save fs).1 (c.save fs).2.1 (save_hasChanges_false c fs)
  rw [h2]
  exact ⟨rfl, rfl, rfl⟩

theorem mem_setAdd_self (l : List String) (k : String) : k ∈ setAdd l k := by
  unfold setAdd
  by_cases hc : l.contains k = true
  · rw [if_pos hc]
    simpa using hc
  · rw [if_neg hc]
    simp

theorem not_mem_setDel_self (l : List String) (k : String) : k ∉ setDel l k := by
  intro hmem
  unfold setDel at hmem
  rw [List.mem_filter] at hmem
  simpa using hmem.2

/-- Counterexample to C8 as stated: a collection that has never loaded id
`1` (fresh in-memory state) while the record file `1.yml` exists on disk;
`delete("1")` returns `false`, nothing is tombstoned, and the following
`save()` performs no operation, so the file survives. -/
theorem yamlDelete_counterexample :
    ((YamlCollection.mk [] [] [] [] false).delete "1").1 = false ∧
    (((YamlCollection.mk [] [] [] [] false).delete "1").2.save ["1"]).2.2 = [] ∧
    (((YamlCollection.mk [] [] [] [] false).delete "1").2.save ["1"]).2.1 = ["1"] := by
  refine ⟨rfl, rfl, rfl⟩

/-- C8 (amended): for every id present in the collection's in-memory view
(loaded into `items` or with a cached file path) — in particular any id whose
file was read via `get`/`loadAll` — `delete(id)` returns true, removes the
record from `items` immediately, and the next `save()` unlinks the id's file
when it exists and leaves no file for the id; for an id whose file exists on
disk but was never loaded, `delete(id)` returns false and does nothing. -/
theorem yamlDelete_spec (c : YamlCollection) (id : String) (fs : List String)
    (h : (assocFind c.items id).isSome = true ∨ c.filePaths.contains id = true) :
    (c.delete id).1 = true ∧
    assocFind (c.delete id).2.items id = none ∧
    (fs.contains id = true → FSOp.unlink id ∈ ((c.delete id).2.save fs).2.2) ∧
    ((c.delete id).2.save fs).2.1.contains id = false := by
  have hcond : ((assocFind c.items id).isSome || c.filePaths.contains id) = true := by
    rcases h with h | h
    · simp [h]
    · have h2 : id ∈ c.filePaths := by simpa using h
      simp [h2]
  have hdel : c.delete id = (true,
      { c with
        items := assocDel c.items id,
        deleted := setAdd c.deleted id,
        dirty := setDel c.dirty id,
        hasChanges := true }) := by
    unfold YamlCollection.delete
    rw [if_pos hcond]
  have hsave : ((c.delete id).2.save fs).2 =
      ((fs.filter (fun i => !(setAdd c.deleted id).contains i) ++
        ((setDel c.dirty id).filter
          (fun i => jsTruthy ((assocFind (assocDel c.items id) i).getD JsValue.undefined))).filter
          (fun i => !(fs.filter (fun i2 => !(setAdd c.deleted id).contains i2)).contains i)),
       (((setAdd c.deleted id).filter (fun i => fs.contains i)).map FSOp.unlink ++
        ((setDel c.dirty id).filter
          (fun i => jsTruthy ((assocFind (assocDel c.items id) i).getD JsValue.undefined))).map
          FSOp.write)) := by
    rw [hdel]
    unfold YamlCollection.save
    rw [if_neg (by simp)]
  refine ⟨by rw [hdel], by rw [hdel]; exact assocFind_assocDel_self _ _, ?_, ?_⟩
  · intro hfs
    rw [show ((c.delete id).2.save fs).2.2 = (((c.delete id).2.save fs).2).2 from rfl, hsave]
    apply List.mem_append_left
    rw [List.mem_map]
    refine ⟨id, ?_, rfl⟩
    rw [List.mem_filter]
    exact ⟨mem_setAdd_self _ _, hfs⟩
  · rw [show ((c.delete id).2.save fs).2.1 = (((c.delete id).2.save fs).2).1 from rfl, hsave]
    have hnot : id ∉ fs.filter (fun i => !(setAdd c.deleted id).contains i) ++
        ((setDel c.dirty id).filter
          (fun i => jsTruthy ((assocFind (assocDel c.items id) i).getD JsValue.undefined))).filter
          (fun i => !(fs.filter (fun i2 => !(setAdd c.deleted id).contains i2)).contains i) := by
      intro hmem
      rcases List.mem_append.mp hmem with hm | hm
      · rw [List.mem_filter] at hm
        have h2 := hm.2
        have h3 : (setAdd c.deleted id).contains id = true := by
          simpa using mem_setAdd_self c.deleted id
        rw [h3] at h2
        simp at h2
      · rw [List.mem_filter] at hm
        have h2 := hm.1
        rw [List.mem_filter] at h2
        exact not_mem_setDel_self c.dirty id h2.1
    simpa using hnot

/-- Witness for the amended C8 theorem: a collection that has loaded record
`1` deletes it, and the next save unlinks `1.yml`. -/
theorem yamlDelete_spec_witness :
    ((YamlCollection.mk [("1", JsValue.obj [])] ["1"] [] [] false).delete "1").1 = true ∧
    assocFind ((YamlCollection.mk [("1", JsValue.obj [])] ["1"] [] [] false).delete "1").2.items
      "1" = none ∧
    FSOp.unlink "1" ∈
      (((YamlCollection.mk [("1", JsValue.obj [])] ["1"] [] [] false).delete "1").2.save
        ["1"]).2.2 ∧
    (((YamlCollection.mk [("1", JsValue.obj [])] ["1"] [] [] false).delete "1").2.save
      ["1"]).2.1.contains "1" = false :=
  ⟨(yamlDelete_spec (YamlCollection.mk [("1", JsValue.obj [])] ["1"] [] [] false) "1" ["1"]
      (Or.inl rfl)).1,
   (yamlDelete_spec (YamlCollection.mk [("1", JsValue.obj [])] ["1"] [] [] false) "1" ["1"]
      (Or.inl rfl)).2.1,
   (yamlDelete_spec (YamlCollection.mk [("1", JsValue.obj [])] ["1"] [] [] false) "1" ["1"]
      (Or.inl rfl)).2.2.1 rfl,
   (yamlDelete_spec (YamlCollection.mk [("1", JsValue.obj [])] ["1"] [] [] false) "1" ["1"]
      (Or.inl rfl)).2.2.2⟩
